import Mathlib

/-!
Verification of the nestools sprite/stage compilers: a shallow embedding of
the tile codec (src/sprites/mod.rs), the sheet extractor (src/sprites/sheet.rs),
the pattern-table builder, and the stage grid compiler (src/stage/serialize.rs),
with theorems settling the specification claims about them.

Machine bytes (u8/u16) are modelled as Nat; every value written by the code is
below 2^8 on the paths the theorems describe, and the one silent `as u8` cast
(the body-length byte) is modelled with an explicit `% 256`.
-/

set_option maxRecDepth 10000

namespace Nestools

/-- Global sprite error type from src/sprites/mod.rs.  `PNGError` wraps the
lodepng error (an external collaborator); the others carry their message. -/
inductive Error where
  | PNGError (msg : String)
  | DimensionsError (msg : String)
  | PaletteError (msg : String)
  | FormatError (msg : String)
deriving DecidableEq

/-- A single tile with an optional name (struct Tile).  `data` models the
`[u8; 16]` chr payload as a list of 16 bytes. -/
structure Tile where
  name : Option String
  data : List Nat
deriving DecidableEq

/-- Rust's `bytes.chunks(8)`: full chunks of 8 in order, with a final short
chunk when fewer than 8 elements remain. -/
def chunks8 : List α → List (List α)
  | [] => []
  | a1 :: a2 :: a3 :: a4 :: a5 :: a6 :: a7 :: a8 :: rest =>
      [a1, a2, a3, a4, a5, a6, a7, a8] :: chunks8 rest
  | short => [short]

/-- The per-row byte pair computed inside `Tile::from_bytes`
(src/sprites/mod.rs lines 166-186): `byte1` collects each pixel's low bit
(bit 7 = pixel 0), `byte2` collects each pixel's high bit in the same order. -/
def rowPair (row : List Nat) : Nat × Nat :=
  ((row.getD 0 0 &&& 1) <<< 7 ||| (row.getD 1 0 &&& 1) <<< 6 |||
     (row.getD 2 0 &&& 1) <<< 5 ||| (row.getD 3 0 &&& 1) <<< 4 |||
     (row.getD 4 0 &&& 1) <<< 3 ||| (row.getD 5 0 &&& 1) <<< 2 |||
     (row.getD 6 0 &&& 1) <<< 1 ||| (row.getD 7 0 &&& 1),
   (row.getD 0 0 &&& 2) <<< 6 ||| (row.getD 1 0 &&& 2) <<< 5 |||
     (row.getD 2 0 &&& 2) <<< 4 ||| (row.getD 3 0 &&& 2) <<< 3 |||
     (row.getD 4 0 &&& 2) <<< 2 ||| (row.getD 5 0 &&& 2) <<< 1 |||
     (row.getD 6 0 &&& 2) ||| (row.getD 7 0 &&& 2) >>> 1)

/-- `Tile::from_bytes` (src/sprites/mod.rs lines 152-203): checks the block
length and the 2-bit palette range, then packs each 8-pixel row into its two
plane bytes, storing all plane-0 bytes before all plane-1 bytes. -/
def Tile.from_bytes (bytes : List Nat) (name : Option String) : Except Error Tile :=
  if bytes.length ≠ 64 then
    .error (.DimensionsError ("Need bytes array of size 64, got " ++ toString bytes.length))
  else
    match bytes.find? (fun item => decide (3 < item)) with
    | some item =>
        .error (.PaletteError
          ("Byte out of bounds; needs to be under 4, got " ++ toString item ++ "."))
    | none =>
        let bytepairs := (chunks8 bytes).map rowPair
        let first_bytes := bytepairs.map Prod.fst
        let second_bytes := bytepairs.map Prod.snd
        .ok { name := name, data := first_bytes ++ second_bytes }

/-- One pixel as produced by `TileRowIterator::next` (src/sprites/mod.rs lines
248-260) from the row's two plane bytes at a given column. -/
def tileRowPixel (bytes : Nat × Nat) (column : Nat) : Nat :=
  ((1 <<< (7 - column)) &&& bytes.1) >>> (7 - column) |||
    (((1 <<< (7 - column)) &&& bytes.2) >>> (7 - column)) <<< 1

/-- The byte pair `TileIterator::next` reads for a row (src/sprites/mod.rs
lines 218-230): `data[row]` and `data[row + 8]`. -/
def rowOf (t : Tile) (row : Nat) : Nat × Nat :=
  (t.data.getD row 0, t.data.getD (row + 8) 0)

/-- The full unpacking of a tile produced by iterating the 8 rows and, within
each row, the 8 columns (`Tile::iter`). -/
def unpackTile (t : Tile) : List Nat :=
  ((List.range 8).map (fun row => (List.range 8).map (tileRowPixel (rowOf t row)))).flatten

/-! ### Bit-level lemmas for the tile codec -/

lemma and1_le (x : Nat) : x &&& 1 ≤ 1 := by
  rw [Nat.and_one_is_mod]; omega

lemma and2_cases (x : Nat) (h : x ≤ 3) : x &&& 2 = 0 ∨ x &&& 2 = 2 := by
  interval_cases x <;> decide

lemma or_and12 (x : Nat) (h : x ≤ 3) : (x &&& 1) ||| (x &&& 2) = x := by
  interval_cases x <;> decide

/-- Every low bit packed by the plane-0 formula of `Tile::from_bytes` is
recovered by masking and shifting, for each of the eight bit positions. -/
lemma extractA (a0 a1 a2 a3 a4 a5 a6 a7 : Nat)
    (h0 : a0 ≤ 1) (h1 : a1 ≤ 1) (h2 : a2 ≤ 1) (h3 : a3 ≤ 1)
    (h4 : a4 ≤ 1) (h5 : a5 ≤ 1) (h6 : a6 ≤ 1) (h7 : a7 ≤ 1) :
    (128 &&& (a0 <<< 7 ||| a1 <<< 6 ||| a2 <<< 5 ||| a3 <<< 4 |||
      a4 <<< 3 ||| a5 <<< 2 ||| a6 <<< 1 ||| a7)) >>> 7 = a0 ∧
    (64 &&& (a0 <<< 7 ||| a1 <<< 6 ||| a2 <<< 5 ||| a3 <<< 4 |||
      a4 <<< 3 ||| a5 <<< 2 ||| a6 <<< 1 ||| a7)) >>> 6 = a1 ∧
    (32 &&& (a0 <<< 7 ||| a1 <<< 6 ||| a2 <<< 5 ||| a3 <<< 4 |||
      a4 <<< 3 ||| a5 <<< 2 ||| a6 <<< 1 ||| a7)) >>> 5 = a2 ∧
    (16 &&& (a0 <<< 7 ||| a1 <<< 6 ||| a2 <<< 5 ||| a3 <<< 4 |||
      a4 <<< 3 ||| a5 <<< 2 ||| a6 <<< 1 ||| a7)) >>> 4 = a3 ∧
    (8 &&& (a0 <<< 7 ||| a1 <<< 6 ||| a2 <<< 5 ||| a3 <<< 4 |||
      a4 <<< 3 ||| a5 <<< 2 ||| a6 <<< 1 ||| a7)) >>> 3 = a4 ∧
    (4 &&& (a0 <<< 7 ||| a1 <<< 6 ||| a2 <<< 5 ||| a3 <<< 4 |||
      a4 <<< 3 ||| a5 <<< 2 ||| a6 <<< 1 ||| a7)) >>> 2 = a5 ∧
    (2 &&& (a0 <<< 7 ||| a1 <<< 6 ||| a2 <<< 5 ||| a3 <<< 4 |||
      a4 <<< 3 ||| a5 <<< 2 ||| a6 <<< 1 ||| a7)) >>> 1 = a6 ∧
    (1 &&& (a0 <<< 7 ||| a1 <<< 6 ||| a2 <<< 5 ||| a3 <<< 4 |||
      a4 <<< 3 ||| a5 <<< 2 ||| a6 <<< 1 ||| a7)) >>> 0 = a7 := by
  interval_cases a0 <;> interval_cases a1 <;> interval_cases a2 <;> interval_cases a3 <;>
    interval_cases a4 <;> interval_cases a5 <;> interval_cases a6 <;> interval_cases a7 <;>
    decide

/-- Every high bit packed by the plane-1 formula of `Tile::from_bytes` is
recovered (already re-shifted into bit 1) by masking and shifting, for each of
the eight bit positions. -/
lemma extractB (b0 b1 b2 b3 b4 b5 b6 b7 : Nat)
    (h0 : b0 = 0 ∨ b0 = 2) (h1 : b1 = 0 ∨ b1 = 2) (h2 : b2 = 0 ∨ b2 = 2)
    (h3 : b3 = 0 ∨ b3 = 2) (h4 : b4 = 0 ∨ b4 = 2) (h5 : b5 = 0 ∨ b5 = 2)
    (h6 : b6 = 0 ∨ b6 = 2) (h7 : b7 = 0 ∨ b7 = 2) :
    ((128 &&& (b0 <<< 6 ||| b1 <<< 5 ||| b2 <<< 4 ||| b3 <<< 3 |||
      b4 <<< 2 ||| b5 <<< 1 ||| b6 ||| b7 >>> 1)) >>> 7) <<< 1 = b0 ∧
    ((64 &&& (b0 <<< 6 ||| b1 <<< 5 ||| b2 <<< 4 ||| b3 <<< 3 |||
      b4 <<< 2 ||| b5 <<< 1 ||| b6 ||| b7 >>> 1)) >>> 6) <<< 1 = b1 ∧
    ((32 &&& (b0 <<< 6 ||| b1 <<< 5 ||| b2 <<< 4 ||| b3 <<< 3 |||
      b4 <<< 2 ||| b5 <<< 1 ||| b6 ||| b7 >>> 1)) >>> 5) <<< 1 = b2 ∧
    ((16 &&& (b0 <<< 6 ||| b1 <<< 5 ||| b2 <<< 4 ||| b3 <<< 3 |||
      b4 <<< 2 ||| b5 <<< 1 ||| b6 ||| b7 >>> 1)) >>> 4) <<< 1 = b3 ∧
    ((8 &&& (b0 <<< 6 ||| b1 <<< 5 ||| b2 <<< 4 ||| b3 <<< 3 |||
      b4 <<< 2 ||| b5 <<< 1 ||| b6 ||| b7 >>> 1)) >>> 3) <<< 1 = b4 ∧
    ((4 &&& (b0 <<< 6 ||| b1 <<< 5 ||| b2 <<< 4 ||| b3 <<< 3 |||
      b4 <<< 2 ||| b5 <<< 1 ||| b6 ||| b7 >>> 1)) >>> 2) <<< 1 = b5 ∧
    ((2 &&& (b0 <<< 6 ||| b1 <<< 5 ||| b2 <<< 4 ||| b3 <<< 3 |||
      b4 <<< 2 ||| b5 <<< 1 ||| b6 ||| b7 >>> 1)) >>> 1) <<< 1 = b6 ∧
    ((1 &&& (b0 <<< 6 ||| b1 <<< 5 ||| b2 <<< 4 ||| b3 <<< 3 |||
      b4 <<< 2 ||| b5 <<< 1 ||| b6 ||| b7 >>> 1)) >>> 0) <<< 1 = b7 := by
  rcases h0 with rfl | rfl <;> rcases h1 with rfl | rfl <;> rcases h2 with rfl | rfl <;>
    rcases h3 with rfl | rfl <;> rcases h4 with rfl | rfl <;> rcases h5 with rfl | rfl <;>
    rcases h6 with rfl | rfl <;> rcases h7 with rfl | rfl <;> decide

/-- Unpacking column 0 of a packed row recovers pixel 0. -/
lemma pixel_col0 (r0 r1 r2 r3 r4 r5 r6 r7 : Nat)
    (g0 : r0 ≤ 3) (g1 : r1 ≤ 3) (g2 : r2 ≤ 3) (g3 : r3 ≤ 3)
    (g4 : r4 ≤ 3) (g5 : r5 ≤ 3) (g6 : r6 ≤ 3) (g7 : r7 ≤ 3) :
    tileRowPixel (rowPair [r0, r1, r2, r3, r4, r5, r6, r7]) 0 = r0 := by
  show (128 &&& ((r0 &&& 1) <<< 7 ||| (r1 &&& 1) <<< 6 ||| (r2 &&& 1) <<< 5 |||
      (r3 &&& 1) <<< 4 ||| (r4 &&& 1) <<< 3 ||| (r5 &&& 1) <<< 2 |||
      (r6 &&& 1) <<< 1 ||| (r7 &&& 1))) >>> 7 |||
    ((128 &&& ((r0 &&& 2) <<< 6 ||| (r1 &&& 2) <<< 5 ||| (r2 &&& 2) <<< 4 |||
      (r3 &&& 2) <<< 3 ||| (r4 &&& 2) <<< 2 ||| (r5 &&& 2) <<< 1 |||
      (r6 &&& 2) ||| (r7 &&& 2) >>> 1)) >>> 7) <<< 1 = r0
  rw [(extractA _ _ _ _ _ _ _ _ (and1_le r0) (and1_le r1) (and1_le r2) (and1_le r3)
        (and1_le r4) (and1_le r5) (and1_le r6) (and1_le r7)).1,
      (extractB _ _ _ _ _ _ _ _ (and2_cases r0 g0) (and2_cases r1 g1) (and2_cases r2 g2)
        (and2_cases r3 g3) (and2_cases r4 g4) (and2_cases r5 g5) (and2_cases r6 g6)
        (and2_cases r7 g7)).1]
  exact or_and12 r0 g0

/-- Unpacking column 1 of a packed row recovers pixel 1. -/
lemma pixel_col1 (r0 r1 r2 r3 r4 r5 r6 r7 : Nat)
    (g0 : r0 ≤ 3) (g1 : r1 ≤ 3) (g2 : r2 ≤ 3) (g3 : r3 ≤ 3)
    (g4 : r4 ≤ 3) (g5 : r5 ≤ 3) (g6 : r6 ≤ 3) (g7 : r7 ≤ 3) :
    tileRowPixel (rowPair [r0, r1, r2, r3, r4, r5, r6, r7]) 1 = r1 := by
  show (64 &&& ((r0 &&& 1) <<< 7 ||| (r1 &&& 1) <<< 6 ||| (r2 &&& 1) <<< 5 |||
      (r3 &&& 1) <<< 4 ||| (r4 &&& 1) <<< 3 ||| (r5 &&& 1) <<< 2 |||
      (r6 &&& 1) <<< 1 ||| (r7 &&& 1))) >>> 6 |||
    ((64 &&& ((r0 &&& 2) <<< 6 ||| (r1 &&& 2) <<< 5 ||| (r2 &&& 2) <<< 4 |||
      (r3 &&& 2) <<< 3 ||| (r4 &&& 2) <<< 2 ||| (r5 &&& 2) <<< 1 |||
      (r6 &&& 2) ||| (r7 &&& 2) >>> 1)) >>> 6) <<< 1 = r1
  rw [(extractA _ _ _ _ _ _ _ _ (and1_le r0) (and1_le r1) (and1_le r2) (and1_le r3)
        (and1_le r4) (and1_le r5) (and1_le r6) (and1_le r7)).2.1,
      (extractB _ _ _ _ _ _ _ _ (and2_cases r0 g0) (and2_cases r1 g1) (and2_cases r2 g2)
        (and2_cases r3 g3) (and2_cases r4 g4) (and2_cases r5 g5) (and2_cases r6 g6)
        (and2_cases r7 g7)).2.1]
  exact or_and12 r1 g1

/-- Unpacking column 2 of a packed row recovers pixel 2. -/
lemma pixel_col2 (r0 r1 r2 r3 r4 r5 r6 r7 : Nat)
    (g0 : r0 ≤ 3) (g1 : r1 ≤ 3) (g2 : r2 ≤ 3) (g3 : r3 ≤ 3)
    (g4 : r4 ≤ 3) (g5 : r5 ≤ 3) (g6 : r6 ≤ 3) (g7 : r7 ≤ 3) :
    tileRowPixel (rowPair [r0, r1, r2, r3, r4, r5, r6, r7]) 2 = r2 := by
  show (32 &&& ((r0 &&& 1) <<< 7 ||| (r1 &&& 1) <<< 6 ||| (r2 &&& 1) <<< 5 |||
      (r3 &&& 1) <<< 4 ||| (r4 &&& 1) <<< 3 ||| (r5 &&& 1) <<< 2 |||
      (r6 &&& 1) <<< 1 ||| (r7 &&& 1))) >>> 5 |||
    ((32 &&& ((r0 &&& 2) <<< 6 ||| (r1 &&& 2) <<< 5 ||| (r2 &&& 2) <<< 4 |||
      (r3 &&& 2) <<< 3 ||| (r4 &&& 2) <<< 2 ||| (r5 &&& 2) <<< 1 |||
      (r6 &&& 2) ||| (r7 &&& 2) >>> 1)) >>> 5) <<< 1 = r2
  rw [(extractA _ _ _ _ _ _ _ _ (and1_le r0) (and1_le r1) (and1_le r2) (and1_le r3)
        (and1_le r4) (and1_le r5) (and1_le r6) (and1_le r7)).2.2.1,
      (extractB _ _ _ _ _ _ _ _ (and2_cases r0 g0) (and2_cases r1 g1) (and2_cases r2 g2)
        (and2_cases r3 g3) (and2_cases r4 g4) (and2_cases r5 g5) (and2_cases r6 g6)
        (and2_cases r7 g7)).2.2.1]
  exact or_and12 r2 g2

/-- Unpacking column 3 of a packed row recovers pixel 3. -/
lemma pixel_col3 (r0 r1 r2 r3 r4 r5 r6 r7 : Nat)
    (g0 : r0 ≤ 3) (g1 : r1 ≤ 3) (g2 : r2 ≤ 3) (g3 : r3 ≤ 3)
    (g4 : r4 ≤ 3) (g5 : r5 ≤ 3) (g6 : r6 ≤ 3) (g7 : r7 ≤ 3) :
    tileRowPixel (rowPair [r0, r1, r2, r3, r4, r5, r6, r7]) 3 = r3 := by
  show (16 &&& ((r0 &&& 1) <<< 7 ||| (r1 &&& 1) <<< 6 ||| (r2 &&& 1) <<< 5 |||
      (r3 &&& 1) <<< 4 ||| (r4 &&& 1) <<< 3 ||| (r5 &&& 1) <<< 2 |||
      (r6 &&& 1) <<< 1 ||| (r7 &&& 1))) >>> 4 |||
    ((16 &&& ((r0 &&& 2) <<< 6 ||| (r1 &&& 2) <<< 5 ||| (r2 &&& 2) <<< 4 |||
      (r3 &&& 2) <<< 3 ||| (r4 &&& 2) <<< 2 ||| (r5 &&& 2) <<< 1 |||
      (r6 &&& 2) ||| (r7 &&& 2) >>> 1)) >>> 4) <<< 1 = r3
  rw [(extractA _ _ _ _ _ _ _ _ (and1_le r0) (and1_le r1) (and1_le r2) (and1_le r3)
        (and1_le r4) (and1_le r5) (and1_le r6) (and1_le r7)).2.2.2.1,
      (extractB _ _ _ _ _ _ _ _ (and2_cases r0 g0) (and2_cases r1 g1) (and2_cases r2 g2)
        (and2_cases r3 g3) (and2_cases r4 g4) (and2_cases r5 g5) (and2_cases r6 g6)
        (and2_cases r7 g7)).2.2.2.1]
  exact or_and12 r3 g3

/-- Unpacking column 4 of a packed row recovers pixel 4. -/
lemma pixel_col4 (r0 r1 r2 r3 r4 r5 r6 r7 : Nat)
    (g0 : r0 ≤ 3) (g1 : r1 ≤ 3) (g2 : r2 ≤ 3) (g3 : r3 ≤ 3)
    (g4 : r4 ≤ 3) (g5 : r5 ≤ 3) (g6 : r6 ≤ 3) (g7 : r7 ≤ 3) :
    tileRowPixel (rowPair [r0, r1, r2, r3, r4, r5, r6, r7]) 4 = r4 := by
  show (8 &&& ((r0 &&& 1) <<< 7 ||| (r1 &&& 1) <<< 6 ||| (r2 &&& 1) <<< 5 |||
      (r3 &&& 1) <<< 4 ||| (r4 &&& 1) <<< 3 ||| (r5 &&& 1) <<< 2 |||
      (r6 &&& 1) <<< 1 ||| (r7 &&& 1))) >>> 3 |||
    ((8 &&& ((r0 &&& 2) <<< 6 ||| (r1 &&& 2) <<< 5 ||| (r2 &&& 2) <<< 4 |||
      (r3 &&& 2) <<< 3 ||| (r4 &&& 2) <<< 2 ||| (r5 &&& 2) <<< 1 |||
      (r6 &&& 2) ||| (r7 &&& 2) >>> 1)) >>> 3) <<< 1 = r4
  rw [(extractA _ _ _ _ _ _ _ _ (and1_le r0) (and1_le r1) (and1_le r2) (and1_le r3)
        (and1_le r4) (and1_le r5) (and1_le r6) (and1_le r7)).2.2.2.2.1,
      (extractB _ _ _ _ _ _ _ _ (and2_cases r0 g0) (and2_cases r1 g1) (and2_cases r2 g2)
        (and2_cases r3 g3) (and2_cases r4 g4) (and2_cases r5 g5) (and2_cases r6 g6)
        (and2_cases r7 g7)).2.2.2.2.1]
  exact or_and12 r4 g4

/-- Unpacking column 5 of a packed row recovers pixel 5. -/
lemma pixel_col5 (r0 r1 r2 r3 r4 r5 r6 r7 : Nat)
    (g0 : r0 ≤ 3) (g1 : r1 ≤ 3) (g2 : r2 ≤ 3) (g3 : r3 ≤ 3)
    (g4 : r4 ≤ 3) (g5 : r5 ≤ 3) (g6 : r6 ≤ 3) (g7 : r7 ≤ 3) :
    tileRowPixel (rowPair [r0, r1, r2, r3, r4, r5, r6, r7]) 5 = r5 := by
  show (4 &&& ((r0 &&& 1) <<< 7 ||| (r1 &&& 1) <<< 6 ||| (r2 &&& 1) <<< 5 |||
      (r3 &&& 1) <<< 4 ||| (r4 &&& 1) <<< 3 ||| (r5 &&& 1) <<< 2 |||
      (r6 &&& 1) <<< 1 ||| (r7 &&& 1))) >>> 2 |||
    ((4 &&& ((r0 &&& 2) <<< 6 ||| (r1 &&& 2) <<< 5 ||| (r2 &&& 2) <<< 4 |||
      (r3 &&& 2) <<< 3 ||| (r4 &&& 2) <<< 2 ||| (r5 &&& 2) <<< 1 |||
      (r6 &&& 2) ||| (r7 &&& 2) >>> 1)) >>> 2) <<< 1 = r5
  rw [(extractA _ _ _ _ _ _ _ _ (and1_le r0) (and1_le r1) (and1_le r2) (and1_le r3)
        (and1_le r4) (and1_le r5) (and1_le r6) (and1_le r7)).2.2.2.2.2.1,
      (extractB _ _ _ _ _ _ _ _ (and2_cases r0 g0) (and2_cases r1 g1) (and2_cases r2 g2)
        (and2_cases r3 g3) (and2_cases r4 g4) (and2_cases r5 g5) (and2_cases r6 g6)
        (and2_cases r7 g7)).2.2.2.2.2.1]
  exact or_and12 r5 g5

/-- Unpacking column 6 of a packed row recovers pixel 6. -/
lemma pixel_col6 (r0 r1 r2 r3 r4 r5 r6 r7 : Nat)
    (g0 : r0 ≤ 3) (g1 : r1 ≤ 3) (g2 : r2 ≤ 3) (g3 : r3 ≤ 3)
    (g4 : r4 ≤ 3) (g5 : r5 ≤ 3) (g6 : r6 ≤ 3) (g7 : r7 ≤ 3) :
    tileRowPixel (rowPair [r0, r1, r2, r3, r4, r5, r6, r7]) 6 = r6 := by
  show (2 &&& ((r0 &&& 1) <<< 7 ||| (r1 &&& 1) <<< 6 ||| (r2 &&& 1) <<< 5 |||
      (r3 &&& 1) <<< 4 ||| (r4 &&& 1) <<< 3 ||| (r5 &&& 1) <<< 2 |||
      (r6 &&& 1) <<< 1 ||| (r7 &&& 1))) >>> 1 |||
    ((2 &&& ((r0 &&& 2) <<< 6 ||| (r1 &&& 2) <<< 5 ||| (r2 &&& 2) <<< 4 |||
      (r3 &&& 2) <<< 3 ||| (r4 &&& 2) <<< 2 ||| (r5 &&& 2) <<< 1 |||
      (r6 &&& 2) ||| (r7 &&& 2) >>> 1)) >>> 1) <<< 1 = r6
  rw [(extractA _ _ _ _ _ _ _ _ (and1_le r0) (and1_le r1) (and1_le r2) (and1_le r3)
        (and1_le r4) (and1_le r5) (and1_le r6) (and1_le r7)).2.2.2.2.2.2.1,
      (extractB _ _ _ _ _ _ _ _ (and2_cases r0 g0) (and2_cases r1 g1) (and2_cases r2 g2)
        (and2_cases r3 g3) (and2_cases r4 g4) (and2_cases r5 g5) (and2_cases r6 g6)
        (and2_cases r7 g7)).2.2.2.2.2.2.1]
  exact or_and12 r6 g6

/-- Unpacking column 7 of a packed row recovers pixel 7. -/
lemma pixel_col7 (r0 r1 r2 r3 r4 r5 r6 r7 : Nat)
    (g0 : r0 ≤ 3) (g1 : r1 ≤ 3) (g2 : r2 ≤ 3) (g3 : r3 ≤ 3)
    (g4 : r4 ≤ 3) (g5 : r5 ≤ 3) (g6 : r6 ≤ 3) (g7 : r7 ≤ 3) :
    tileRowPixel (rowPair [r0, r1, r2, r3, r4, r5, r6, r7]) 7 = r7 := by
  show (1 &&& ((r0 &&& 1) <<< 7 ||| (r1 &&& 1) <<< 6 ||| (r2 &&& 1) <<< 5 |||
      (r3 &&& 1) <<< 4 ||| (r4 &&& 1) <<< 3 ||| (r5 &&& 1) <<< 2 |||
      (r6 &&& 1) <<< 1 ||| (r7 &&& 1))) >>> 0 |||
    ((1 &&& ((r0 &&& 2) <<< 6 ||| (r1 &&& 2) <<< 5 ||| (r2 &&& 2) <<< 4 |||
      (r3 &&& 2) <<< 3 ||| (r4 &&& 2) <<< 2 ||| (r5 &&& 2) <<< 1 |||
      (r6 &&& 2) ||| (r7 &&& 2) >>> 1)) >>> 0) <<< 1 = r7
  rw [(extractA _ _ _ _ _ _ _ _ (and1_le r0) (and1_le r1) (and1_le r2) (and1_le r3)
        (and1_le r4) (and1_le r5) (and1_le r6) (and1_le r7)).2.2.2.2.2.2.2,
      (extractB _ _ _ _ _ _ _ _ (and2_cases r0 g0) (and2_cases r1 g1) (and2_cases r2 g2)
        (and2_cases r3 g3) (and2_cases r4 g4) (and2_cases r5 g5) (and2_cases r6 g6)
        (and2_cases r7 g7)).2.2.2.2.2.2.2]
  exact or_and12 r7 g7

/-- Row round trip: unpacking the two plane bytes of a packed 8-pixel row
column by column reproduces the row. -/
lemma row_roundtrip (row : List Nat) (h8 : row.length = 8)
    (h3 : ∀ x ∈ row, x ≤ 3) :
    (List.range 8).map (tileRowPixel (rowPair row)) = row := by
  obtain ⟨r0, row, rfl⟩ := List.exists_of_length_succ row (by omega : row.length = 7 + 1)
  simp only [List.length_cons] at h8
  obtain ⟨r1, row, rfl⟩ := List.exists_of_length_succ row (by omega : row.length = 6 + 1)
  simp only [List.length_cons] at h8
  obtain ⟨r2, row, rfl⟩ := List.exists_of_length_succ row (by omega : row.length = 5 + 1)
  simp only [List.length_cons] at h8
  obtain ⟨r3, row, rfl⟩ := List.exists_of_length_succ row (by omega : row.length = 4 + 1)
  simp only [List.length_cons] at h8
  obtain ⟨r4, row, rfl⟩ := List.exists_of_length_succ row (by omega : row.length = 3 + 1)
  simp only [List.length_cons] at h8
  obtain ⟨r5, row, rfl⟩ := List.exists_of_length_succ row (by omega : row.length = 2 + 1)
  simp only [List.length_cons] at h8
  obtain ⟨r6, row, rfl⟩ := List.exists_of_length_succ row (by omega : row.length = 1 + 1)
  simp only [List.length_cons] at h8
  obtain ⟨r7, row, rfl⟩ := List.exists_of_length_succ row (by omega : row.length = 0 + 1)
  simp only [List.length_cons] at h8
  have hrow : row = [] := List.length_eq_zero.mp (by omega)
  subst hrow
  have g0 : r0 ≤ 3 := h3 _ (by simp)
  have g1 : r1 ≤ 3 := h3 _ (by simp)
  have g2 : r2 ≤ 3 := h3 _ (by simp)
  have g3 : r3 ≤ 3 := h3 _ (by simp)
  have g4 : r4 ≤ 3 := h3 _ (by simp)
  have g5 : r5 ≤ 3 := h3 _ (by simp)
  have g6 : r6 ≤ 3 := h3 _ (by simp)
  have g7 : r7 ≤ 3 := h3 _ (by simp)
  have hr : List.range 8 = [0, 1, 2, 3, 4, 5, 6, 7] := rfl
  rw [hr]
  simp only [List.map_cons, List.map_nil, List.cons.injEq, and_true]
  exact ⟨pixel_col0 r0 r1 r2 r3 r4 r5 r6 r7 g0 g1 g2 g3 g4 g5 g6 g7,
    pixel_col1 r0 r1 r2 r3 r4 r5 r6 r7 g0 g1 g2 g3 g4 g5 g6 g7,
    pixel_col2 r0 r1 r2 r3 r4 r5 r6 r7 g0 g1 g2 g3 g4 g5 g6 g7,
    pixel_col3 r0 r1 r2 r3 r4 r5 r6 r7 g0 g1 g2 g3 g4 g5 g6 g7,
    pixel_col4 r0 r1 r2 r3 r4 r5 r6 r7 g0 g1 g2 g3 g4 g5 g6 g7,
    pixel_col5 r0 r1 r2 r3 r4 r5 r6 r7 g0 g1 g2 g3 g4 g5 g6 g7,
    pixel_col6 r0 r1 r2 r3 r4 r5 r6 r7 g0 g1 g2 g3 g4 g5 g6 g7,
    pixel_col7 r0 r1 r2 r3 r4 r5 r6 r7 g0 g1 g2 g3 g4 g5 g6 g7⟩


/-! ### Chunk decomposition of a 64-byte block -/

lemma chunks8_append (l8 rest : List α) (h : l8.length = 8) :
    chunks8 (l8 ++ rest) = l8 :: chunks8 rest := by
  obtain ⟨a1, l8, rfl⟩ := List.exists_of_length_succ l8 (by omega : l8.length = 7 + 1)
  simp only [List.length_cons] at h
  obtain ⟨a2, l8, rfl⟩ := List.exists_of_length_succ l8 (by omega : l8.length = 6 + 1)
  simp only [List.length_cons] at h
  obtain ⟨a3, l8, rfl⟩ := List.exists_of_length_succ l8 (by omega : l8.length = 5 + 1)
  simp only [List.length_cons] at h
  obtain ⟨a4, l8, rfl⟩ := List.exists_of_length_succ l8 (by omega : l8.length = 4 + 1)
  simp only [List.length_cons] at h
  obtain ⟨a5, l8, rfl⟩ := List.exists_of_length_succ l8 (by omega : l8.length = 3 + 1)
  simp only [List.length_cons] at h
  obtain ⟨a6, l8, rfl⟩ := List.exists_of_length_succ l8 (by omega : l8.length = 2 + 1)
  simp only [List.length_cons] at h
  obtain ⟨a7, l8, rfl⟩ := List.exists_of_length_succ l8 (by omega : l8.length = 1 + 1)
  simp only [List.length_cons] at h
  obtain ⟨a8, l8, rfl⟩ := List.exists_of_length_succ l8 (by omega : l8.length = 0 + 1)
  simp only [List.length_cons] at h
  have hl : l8 = [] := List.length_eq_zero.mp (by omega)
  subst hl
  rfl

lemma take_drop_glue (l : List α) (k : Nat) :
    (l.drop k).take 8 ++ l.drop (k + 8) = l.drop k := by
  rw [← List.drop_drop]
  exact List.take_append_drop 8 (l.drop k)


lemma chunks8_closed (l : List α) (h : l.length = 64) :
    chunks8 l = [l.take 8, (l.drop 8).take 8, (l.drop 16).take 8, (l.drop 24).take 8,
      (l.drop 32).take 8, (l.drop 40).take 8, (l.drop 48).take 8, (l.drop 56).take 8] := by
  have s0 : chunks8 l = l.take 8 :: chunks8 (l.drop 8) := by
    conv_lhs => rw [← List.take_append_drop 8 l]
    exact chunks8_append _ _ (by rw [List.length_take]; omega)
  have s1 : chunks8 (l.drop 8) = (l.drop 8).take 8 :: chunks8 (l.drop 16) := by
    conv_lhs => rw [← List.take_append_drop 8 (l.drop 8)]
    rw [chunks8_append _ _ (by rw [List.length_take, List.length_drop]; omega),
      List.drop_drop]
  have s2 : chunks8 (l.drop 16) = (l.drop 16).take 8 :: chunks8 (l.drop 24) := by
    conv_lhs => rw [← List.take_append_drop 8 (l.drop 16)]
    rw [chunks8_append _ _ (by rw [List.length_take, List.length_drop]; omega),
      List.drop_drop]
  have s3 : chunks8 (l.drop 24) = (l.drop 24).take 8 :: chunks8 (l.drop 32) := by
    conv_lhs => rw [← List.take_append_drop 8 (l.drop 24)]
    rw [chunks8_append _ _ (by rw [List.length_take, List.length_drop]; omega),
      List.drop_drop]
  have s4 : chunks8 (l.drop 32) = (l.drop 32).take 8 :: chunks8 (l.drop 40) := by
    conv_lhs => rw [← List.take_append_drop 8 (l.drop 32)]
    rw [chunks8_append _ _ (by rw [List.length_take, List.length_drop]; omega),
      List.drop_drop]
  have s5 : chunks8 (l.drop 40) = (l.drop 40).take 8 :: chunks8 (l.drop 48) := by
    conv_lhs => rw [← List.take_append_drop 8 (l.drop 40)]
    rw [chunks8_append _ _ (by rw [List.length_take, List.length_drop]; omega),
      List.drop_drop]
  have s6 : chunks8 (l.drop 48) = (l.drop 48).take 8 :: chunks8 (l.drop 56) := by
    conv_lhs => rw [← List.take_append_drop 8 (l.drop 48)]
    rw [chunks8_append _ _ (by rw [List.length_take, List.length_drop]; omega),
      List.drop_drop]
  have s7 : chunks8 (l.drop 56) = [(l.drop 56).take 8] := by
    have hnil : List.drop (56 + 8) l = [] := List.drop_eq_nil_of_le (by omega)
    conv_lhs => rw [← List.take_append_drop 8 (l.drop 56)]
    rw [chunks8_append _ _ (by rw [List.length_take, List.length_drop]; omega),
      List.drop_drop, hnil]
    rfl
  rw [s0, s1, s2, s3, s4, s5, s6, s7]

/-- Unpacking a tile whose 16 data bytes are the first and second components
of eight byte pairs yields the eight unpacked rows in order. -/
lemma unpackTile_closed (t : Tile) (p0 p1 p2 p3 p4 p5 p6 p7 : Nat × Nat)
    (hdata : t.data = [p0.1, p1.1, p2.1, p3.1, p4.1, p5.1, p6.1, p7.1,
      p0.2, p1.2, p2.2, p3.2, p4.2, p5.2, p6.2, p7.2]) :
    unpackTile t =
      (List.range 8).map (tileRowPixel p0) ++ ((List.range 8).map (tileRowPixel p1) ++
      ((List.range 8).map (tileRowPixel p2) ++ ((List.range 8).map (tileRowPixel p3) ++
      ((List.range 8).map (tileRowPixel p4) ++ ((List.range 8).map (tileRowPixel p5) ++
      ((List.range 8).map (tileRowPixel p6) ++ ((List.range 8).map (tileRowPixel p7) ++
      []))))))) := by
  obtain ⟨nm, data⟩ := t
  simp only at hdata
  subst hdata
  rfl

/-- C1: for every 64-byte pixel block whose values are all at most 3, packing
with `Tile::from_bytes` succeeds and unpacking the resulting tile by iterating
its rows and columns reproduces the block exactly. -/
theorem pack_unpack_roundtrip (bytes : List Nat) (name : Option String)
    (h64 : bytes.length = 64) (h3 : ∀ b ∈ bytes, b ≤ 3) :
    ∃ t, Tile.from_bytes bytes name = .ok t ∧ unpackTile t = bytes := by
  have hfind : bytes.find? (fun item => decide (3 < item)) = none := by
    rw [List.find?_eq_none]
    intro x hx
    simp only [decide_eq_true_eq, not_lt]
    exact h3 x hx
  have hfb : Tile.from_bytes bytes name = .ok ⟨name,
      ((chunks8 bytes).map rowPair).map Prod.fst ++
        ((chunks8 bytes).map rowPair).map Prod.snd⟩ := by
    unfold Tile.from_bytes
    rw [if_neg (by omega), hfind]
  refine ⟨_, hfb, ?_⟩
  rw [chunks8_closed bytes h64]
  simp only [List.map_cons, List.map_nil, List.cons_append, List.nil_append]
  rw [unpackTile_closed _ (rowPair (bytes.take 8)) (rowPair ((bytes.drop 8).take 8))
    (rowPair ((bytes.drop 16).take 8)) (rowPair ((bytes.drop 24).take 8))
    (rowPair ((bytes.drop 32).take 8)) (rowPair ((bytes.drop 40).take 8))
    (rowPair ((bytes.drop 48).take 8)) (rowPair ((bytes.drop 56).take 8)) rfl]
  rw [row_roundtrip (bytes.take 8) (by rw [List.length_take]; omega)
        (fun x hx => h3 x (List.take_subset _ _ hx)),
      row_roundtrip ((bytes.drop 8).take 8)
        (by rw [List.length_take, List.length_drop]; omega)
        (fun x hx => h3 x (List.drop_subset _ _ (List.take_subset _ _ hx))),
      row_roundtrip ((bytes.drop 16).take 8)
        (by rw [List.length_take, List.length_drop]; omega)
        (fun x hx => h3 x (List.drop_subset _ _ (List.take_subset _ _ hx))),
      row_roundtrip ((bytes.drop 24).take 8)
        (by rw [List.length_take, List.length_drop]; omega)
        (fun x hx => h3 x (List.drop_subset _ _ (List.take_subset _ _ hx))),
      row_roundtrip ((bytes.drop 32).take 8)
        (by rw [List.length_take, List.length_drop]; omega)
        (fun x hx => h3 x (List.drop_subset _ _ (List.take_subset _ _ hx))),
      row_roundtrip ((bytes.drop 40).take 8)
        (by rw [List.length_take, List.length_drop]; omega)
        (fun x hx => h3 x (List.drop_subset _ _ (List.take_subset _ _ hx))),
      row_roundtrip ((bytes.drop 48).take 8)
        (by rw [List.length_take, List.length_drop]; omega)
        (fun x hx => h3 x (List.drop_subset _ _ (List.take_subset _ _ hx))),
      row_roundtrip ((bytes.drop 56).take 8)
        (by rw [List.length_take, List.length_drop]; omega)
        (fun x hx => h3 x (List.drop_subset _ _ (List.take_subset _ _ hx)))]
  simp only [List.append_nil]
  rw [List.take_of_length_le (show (bytes.drop 56).length ≤ 8 by rw [List.length_drop]; omega)]
  rw [show bytes.drop 56 = bytes.drop (48 + 8) from rfl, take_drop_glue bytes 48]
  rw [show bytes.drop 48 = bytes.drop (40 + 8) from rfl, take_drop_glue bytes 40]
  rw [show bytes.drop 40 = bytes.drop (32 + 8) from rfl, take_drop_glue bytes 32]
  rw [show bytes.drop 32 = bytes.drop (24 + 8) from rfl, take_drop_glue bytes 24]
  rw [show bytes.drop 24 = bytes.drop (16 + 8) from rfl, take_drop_glue bytes 16]
  rw [show bytes.drop 16 = bytes.drop (8 + 8) from rfl, take_drop_glue bytes 8]
  exact List.take_append_drop 8 bytes

/-! ### C1 and C2: tile codec claims -/

/-- The 64-value example block from the spec (section 8) and the nesdev doc
comments in src/sprites/mod.rs. -/
def exampleBlock : List Nat :=
  [0, 1, 0, 0, 0, 0, 0, 3,
   1, 1, 0, 0, 0, 0, 3, 0,
   0, 1, 0, 0, 0, 3, 0, 0,
   0, 1, 0, 0, 3, 0, 0, 0,
   0, 0, 0, 3, 0, 2, 2, 0,
   0, 0, 3, 0, 0, 0, 0, 2,
   0, 3, 0, 0, 0, 0, 2, 0,
   3, 0, 0, 0, 0, 2, 2, 2]

/-- The packed 16-byte tile the spec says the example block produces. -/
def exampleData : List Nat :=
  [0x41, 0xC2, 0x44, 0x48, 0x10, 0x20, 0x40, 0x80,
   0x01, 0x02, 0x04, 0x08, 0x16, 0x21, 0x42, 0x87]

theorem pack_unpack_roundtrip_witness :
    exampleBlock.length = 64 ∧ (∀ b ∈ exampleBlock, b ≤ 3) ∧
      ∃ t, Tile.from_bytes exampleBlock none = .ok t ∧ unpackTile t = exampleBlock :=
  ⟨by decide, by decide, pack_unpack_roundtrip exampleBlock none (by decide) (by decide)⟩

/-- Modelled from the spec: "bit-plane 0 = low bit of each of the row's 8
pixels (MSB = leftmost pixel)".  Used only to compare the code's packing
against the spec's description. -/
def specPlane0 (row : List Nat) : Nat :=
  128 * (row.getD 0 0 % 2) + 64 * (row.getD 1 0 % 2) + 32 * (row.getD 2 0 % 2) +
    16 * (row.getD 3 0 % 2) + 8 * (row.getD 4 0 % 2) + 4 * (row.getD 5 0 % 2) +
    2 * (row.getD 6 0 % 2) + (row.getD 7 0 % 2)

/-- Modelled from the spec: "bit-plane 1 = high bit, same bit order". -/
def specPlane1 (row : List Nat) : Nat :=
  128 * (row.getD 0 0 / 2 % 2) + 64 * (row.getD 1 0 / 2 % 2) + 32 * (row.getD 2 0 / 2 % 2) +
    16 * (row.getD 3 0 / 2 % 2) + 8 * (row.getD 4 0 / 2 % 2) + 4 * (row.getD 5 0 / 2 % 2) +
    2 * (row.getD 6 0 / 2 % 2) + (row.getD 7 0 / 2 % 2)

lemma and2_eq (x : Nat) (h : x ≤ 3) : x &&& 2 = 2 * (x / 2 % 2) := by
  interval_cases x <;> decide

/-- The plane-0 OR-of-shifts formula equals the weighted sum of the bits. -/
lemma byteSum1 (a0 a1 a2 a3 a4 a5 a6 a7 : Nat)
    (h0 : a0 ≤ 1) (h1 : a1 ≤ 1) (h2 : a2 ≤ 1) (h3 : a3 ≤ 1)
    (h4 : a4 ≤ 1) (h5 : a5 ≤ 1) (h6 : a6 ≤ 1) (h7 : a7 ≤ 1) :
    (a0 <<< 7 ||| a1 <<< 6 ||| a2 <<< 5 ||| a3 <<< 4 |||
        a4 <<< 3 ||| a5 <<< 2 ||| a6 <<< 1 ||| a7) =
      128 * a0 + 64 * a1 + 32 * a2 + 16 * a3 + 8 * a4 + 4 * a5 + 2 * a6 + a7 := by
  interval_cases a0 <;> interval_cases a1 <;> interval_cases a2 <;> interval_cases a3 <;>
    interval_cases a4 <;> interval_cases a5 <;> interval_cases a6 <;> interval_cases a7 <;>
    decide

/-- The plane-1 OR-of-shifts formula equals the weighted sum of the
(still doubled) high bits. -/
lemma byteSum2 (b0 b1 b2 b3 b4 b5 b6 b7 : Nat)
    (h0 : b0 = 0 ∨ b0 = 2) (h1 : b1 = 0 ∨ b1 = 2) (h2 : b2 = 0 ∨ b2 = 2)
    (h3 : b3 = 0 ∨ b3 = 2) (h4 : b4 = 0 ∨ b4 = 2) (h5 : b5 = 0 ∨ b5 = 2)
    (h6 : b6 = 0 ∨ b6 = 2) (h7 : b7 = 0 ∨ b7 = 2) :
    (b0 <<< 6 ||| b1 <<< 5 ||| b2 <<< 4 ||| b3 <<< 3 |||
        b4 <<< 2 ||| b5 <<< 1 ||| b6 ||| b7 >>> 1) =
      64 * b0 + 32 * b1 + 16 * b2 + 8 * b3 + 4 * b4 + 2 * b5 + b6 + b7 / 2 := by
  rcases h0 with rfl | rfl <;> rcases h1 with rfl | rfl <;> rcases h2 with rfl | rfl <;>
    rcases h3 with rfl | rfl <;> rcases h4 with rfl | rfl <;> rcases h5 with rfl | rfl <;>
    rcases h6 with rfl | rfl <;> rcases h7 with rfl | rfl <;> decide

/-- The first packed byte of a valid row is the spec's plane-0 byte. -/
lemma rowPair_fst_spec (row : List Nat) (h8 : row.length = 8)
    (h3 : ∀ x ∈ row, x ≤ 3) : (rowPair row).1 = specPlane0 row := by
  obtain ⟨r0, row, rfl⟩ := List.exists_of_length_succ row (by omega : row.length = 7 + 1)
  simp only [List.length_cons] at h8
  obtain ⟨r1, row, rfl⟩ := List.exists_of_length_succ row (by omega : row.length = 6 + 1)
  simp only [List.length_cons] at h8
  obtain ⟨r2, row, rfl⟩ := List.exists_of_length_succ row (by omega : row.length = 5 + 1)
  simp only [List.length_cons] at h8
  obtain ⟨r3, row, rfl⟩ := List.exists_of_length_succ row (by omega : row.length = 4 + 1)
  simp only [List.length_cons] at h8
  obtain ⟨r4, row, rfl⟩ := List.exists_of_length_succ row (by omega : row.length = 3 + 1)
  simp only [List.length_cons] at h8
  obtain ⟨r5, row, rfl⟩ := List.exists_of_length_succ row (by omega : row.length = 2 + 1)
  simp only [List.length_cons] at h8
  obtain ⟨r6, row, rfl⟩ := List.exists_of_length_succ row (by omega : row.length = 1 + 1)
  simp only [List.length_cons] at h8
  obtain ⟨r7, row, rfl⟩ := List.exists_of_length_succ row (by omega : row.length = 0 + 1)
  simp only [List.length_cons] at h8
  have hrow : row = [] := List.length_eq_zero.mp (by omega)
  subst hrow
  show (r0 &&& 1) <<< 7 ||| (r1 &&& 1) <<< 6 ||| (r2 &&& 1) <<< 5 |||
      (r3 &&& 1) <<< 4 ||| (r4 &&& 1) <<< 3 ||| (r5 &&& 1) <<< 2 |||
      (r6 &&& 1) <<< 1 ||| (r7 &&& 1) = specPlane0 [r0, r1, r2, r3, r4, r5, r6, r7]
  rw [byteSum1 _ _ _ _ _ _ _ _ (and1_le r0) (and1_le r1) (and1_le r2) (and1_le r3)
        (and1_le r4) (and1_le r5) (and1_le r6) (and1_le r7)]
  simp only [Nat.and_one_is_mod]
  rfl

/-- The second packed byte of a valid row is the spec's plane-1 byte. -/
lemma rowPair_snd_spec (row : List Nat) (h8 : row.length = 8)
    (h3 : ∀ x ∈ row, x ≤ 3) : (rowPair row).2 = specPlane1 row := by
  obtain ⟨r0, row, rfl⟩ := List.exists_of_length_succ row (by omega : row.length = 7 + 1)
  simp only [List.length_cons] at h8
  obtain ⟨r1, row, rfl⟩ := List.exists_of_length_succ row (by omega : row.length = 6 + 1)
  simp only [List.length_cons] at h8
  obtain ⟨r2, row, rfl⟩ := List.exists_of_length_succ row (by omega : row.length = 5 + 1)
  simp only [List.length_cons] at h8
  obtain ⟨r3, row, rfl⟩ := List.exists_of_length_succ row (by omega : row.length = 4 + 1)
  simp only [List.length_cons] at h8
  obtain ⟨r4, row, rfl⟩ := List.exists_of_length_succ row (by omega : row.length = 3 + 1)
  simp only [List.length_cons] at h8
  obtain ⟨r5, row, rfl⟩ := List.exists_of_length_succ row (by omega : row.length = 2 + 1)
  simp only [List.length_cons] at h8
  obtain ⟨r6, row, rfl⟩ := List.exists_of_length_succ row (by omega : row.length = 1 + 1)
  simp only [List.length_cons] at h8
  obtain ⟨r7, row, rfl⟩ := List.exists_of_length_succ row (by omega : row.length = 0 + 1)
  simp only [List.length_cons] at h8
  have hrow : row = [] := List.length_eq_zero.mp (by omega)
  subst hrow
  have g0 : r0 ≤ 3 := h3 _ (by simp)
  have g1 : r1 ≤ 3 := h3 _ (by simp)
  have g2 : r2 ≤ 3 := h3 _ (by simp)
  have g3 : r3 ≤ 3 := h3 _ (by simp)
  have g4 : r4 ≤ 3 := h3 _ (by simp)
  have g5 : r5 ≤ 3 := h3 _ (by simp)
  have g6 : r6 ≤ 3 := h3 _ (by simp)
  have g7 : r7 ≤ 3 := h3 _ (by simp)
  show (r0 &&& 2) <<< 6 ||| (r1 &&& 2) <<< 5 ||| (r2 &&& 2) <<< 4 |||
      (r3 &&& 2) <<< 3 ||| (r4 &&& 2) <<< 2 ||| (r5 &&& 2) <<< 1 |||
      (r6 &&& 2) ||| (r7 &&& 2) >>> 1 = specPlane1 [r0, r1, r2, r3, r4, r5, r6, r7]
  rw [byteSum2 _ _ _ _ _ _ _ _ (and2_cases r0 g0) (and2_cases r1 g1) (and2_cases r2 g2)
        (and2_cases r3 g3) (and2_cases r4 g4) (and2_cases r5 g5) (and2_cases r6 g6)
        (and2_cases r7 g7),
      and2_eq r0 g0, and2_eq r1 g1, and2_eq r2 g2, and2_eq r3 g3,
      and2_eq r4 g4, and2_eq r5 g5, and2_eq r6 g6, and2_eq r7 g7]
  show _ = 128 * (r0 / 2 % 2) + 64 * (r1 / 2 % 2) + 32 * (r2 / 2 % 2) +
      16 * (r3 / 2 % 2) + 8 * (r4 / 2 % 2) + 4 * (r5 / 2 % 2) +
      2 * (r6 / 2 % 2) + (r7 / 2 % 2)
  omega

/-- C2: `Tile::from_bytes` stores, for each row r, the spec's plane-0 byte at
offset r and the spec's plane-1 byte at offset r + 8; and the spec's example
block packs to exactly the spec's example 16 bytes. -/
theorem from_bytes_plane_layout :
    (∀ (bytes : List Nat) (name : Option String) (t : Tile),
        Tile.from_bytes bytes name = .ok t → ∀ r, r < 8 →
        t.data.getD r 0 = specPlane0 ((bytes.drop (8 * r)).take 8) ∧
        t.data.getD (r + 8) 0 = specPlane1 ((bytes.drop (8 * r)).take 8)) ∧
    Tile.from_bytes exampleBlock none = .ok ⟨none, exampleData⟩ := by
  constructor
  · intro bytes name t hok r hr
    unfold Tile.from_bytes at hok
    split at hok
    · exact absurd hok (by simp)
    split at hok
    · exact absurd hok (by simp)
    rename_i hne hfind
    have h64 : bytes.length = 64 := by omega
    have hb : ∀ b ∈ bytes, b ≤ 3 := by
      rw [List.find?_eq_none] at hfind
      intro b hbmem
      have := hfind b hbmem
      simp only [decide_eq_true_eq, not_lt] at this
      exact this
    simp only [Except.ok.injEq] at hok
    subst hok
    show (((chunks8 bytes).map rowPair).map Prod.fst ++
        ((chunks8 bytes).map rowPair).map Prod.snd).getD r 0 = _ ∧
      (((chunks8 bytes).map rowPair).map Prod.fst ++
        ((chunks8 bytes).map rowPair).map Prod.snd).getD (r + 8) 0 = _
    rw [chunks8_closed bytes h64]
    simp only [List.map_cons, List.map_nil, List.cons_append, List.nil_append]
    interval_cases r
    · exact ⟨rowPair_fst_spec (bytes.take 8) (by rw [List.length_take]; omega) (fun x hx => hb x (List.take_subset _ _ hx)),
        rowPair_snd_spec (bytes.take 8) (by rw [List.length_take]; omega) (fun x hx => hb x (List.take_subset _ _ hx))⟩
    · exact ⟨rowPair_fst_spec ((bytes.drop 8).take 8) (by rw [List.length_take, List.length_drop]; omega) (fun x hx => hb x (List.drop_subset _ _ (List.take_subset _ _ hx))),
        rowPair_snd_spec ((bytes.drop 8).take 8) (by rw [List.length_take, List.length_drop]; omega) (fun x hx => hb x (List.drop_subset _ _ (List.take_subset _ _ hx)))⟩
    · exact ⟨rowPair_fst_spec ((bytes.drop 16).take 8) (by rw [List.length_take, List.length_drop]; omega) (fun x hx => hb x (List.drop_subset _ _ (List.take_subset _ _ hx))),
        rowPair_snd_spec ((bytes.drop 16).take 8) (by rw [List.length_take, List.length_drop]; omega) (fun x hx => hb x (List.drop_subset _ _ (List.take_subset _ _ hx)))⟩
    · exact ⟨rowPair_fst_spec ((bytes.drop 24).take 8) (by rw [List.length_take, List.length_drop]; omega) (fun x hx => hb x (List.drop_subset _ _ (List.take_subset _ _ hx))),
        rowPair_snd_spec ((bytes.drop 24).take 8) (by rw [List.length_take, List.length_drop]; omega) (fun x hx => hb x (List.drop_subset _ _ (List.take_subset _ _ hx)))⟩
    · exact ⟨rowPair_fst_spec ((bytes.drop 32).take 8) (by rw [List.length_take, List.length_drop]; omega) (fun x hx => hb x (List.drop_subset _ _ (List.take_subset _ _ hx))),
        rowPair_snd_spec ((bytes.drop 32).take 8) (by rw [List.length_take, List.length_drop]; omega) (fun x hx => hb x (List.drop_subset _ _ (List.take_subset _ _ hx)))⟩
    · exact ⟨rowPair_fst_spec ((bytes.drop 40).take 8) (by rw [List.length_take, List.length_drop]; omega) (fun x hx => hb x (List.drop_subset _ _ (List.take_subset _ _ hx))),
        rowPair_snd_spec ((bytes.drop 40).take 8) (by rw [List.length_take, List.length_drop]; omega) (fun x hx => hb x (List.drop_subset _ _ (List.take_subset _ _ hx)))⟩
    · exact ⟨rowPair_fst_spec ((bytes.drop 48).take 8) (by rw [List.length_take, List.length_drop]; omega) (fun x hx => hb x (List.drop_subset _ _ (List.take_subset _ _ hx))),
        rowPair_snd_spec ((bytes.drop 48).take 8) (by rw [List.length_take, List.length_drop]; omega) (fun x hx => hb x (List.drop_subset _ _ (List.take_subset _ _ hx)))⟩
    · exact ⟨rowPair_fst_spec ((bytes.drop 56).take 8) (by rw [List.length_take, List.length_drop]; omega) (fun x hx => hb x (List.drop_subset _ _ (List.take_subset _ _ hx))),
        rowPair_snd_spec ((bytes.drop 56).take 8) (by rw [List.length_take, List.length_drop]; omega) (fun x hx => hb x (List.drop_subset _ _ (List.take_subset _ _ hx)))⟩
  · rfl

theorem from_bytes_plane_layout_witness :
    Tile.from_bytes exampleBlock none = .ok ⟨none, exampleData⟩ ∧
      (⟨none, exampleData⟩ : Tile).data.getD 0 0 =
        specPlane0 ((exampleBlock.drop (8 * 0)).take 8) ∧
      (⟨none, exampleData⟩ : Tile).data.getD (0 + 8) 0 =
        specPlane1 ((exampleBlock.drop (8 * 0)).take 8) :=
  ⟨from_bytes_plane_layout.2,
    (from_bytes_plane_layout.1 exampleBlock none ⟨none, exampleData⟩
      from_bytes_plane_layout.2 0 (by decide)).1,
    (from_bytes_plane_layout.1 exampleBlock none ⟨none, exampleData⟩
      from_bytes_plane_layout.2 0 (by decide)).2⟩

/-! ### Stage grid compiler (src/stage/serialize.rs) -/

/-- Orientation enum for setting orientation. -/
inductive Orientation where
  | Horizontal
  | Vertical
deriving DecidableEq

/-- A metatile: debugging name, data-section symbol, the four tile indices
(`[u8; 4]`, modelled as a quadruple), and the palette byte. -/
structure Metatile where
  name : String
  symbol : Char
  tiles : Nat × Nat × Nat × Nat
  palette : Nat
deriving DecidableEq

/-- Top level stage sheet type.  `data` holds the multi-line ASCII grid; the
splitting of the Rust `String` by `lines()` is modelled upstream, so the field
is the list of lines, each a list of characters. -/
structure Stage where
  orientation : Orientation
  background_palette : List Nat
  sprite_palette : List Nat
  metatiles : List Metatile
  data : List (List Char)

/-- One iteration of the `for &c in &chars[1..]` loop of `run_length_encode`
(src/stage/serialize.rs lines 67-83), acting on the state
(current, count, output). -/
def rleStep (limit : Nat) (st : Char × Nat × List (Char × Nat)) (c : Char) :
    Char × Nat × List (Char × Nat) :=
  if c = st.1 then
    if st.2.1 + 1 = limit then (Char.ofNat 0, 0, st.2.2 ++ [(st.1, st.2.1 + 1)])
    else (st.1, st.2.1 + 1, st.2.2)
  else
    (c, 1, if st.2.1 > 0 then st.2.2 ++ [(st.1, st.2.1)] else st.2.2)

/-- `run_length_encode` (src/stage/serialize.rs lines 62-89): RLE-compress a
character sequence, closing a run when the character changes or the count
reaches `limit` (on reaching the limit the current character is reset to NUL
and the count to 0, exactly as in the source). -/
def run_length_encode (chars : List Char) (limit : Nat) : List (Char × Nat) :=
  match chars with
  | [] => []
  | c0 :: rest =>
    let st := rest.foldl (rleStep limit) (c0, 1, [])
    if st.2.1 > 0 then st.2.2 ++ [(st.1, st.2.1)] else st.2.2

/-- Expansion of a run list back into the character sequence it encodes. -/
def decodeRuns (runs : List (Char × Nat)) : List Char :=
  (runs.map (fun r => List.replicate r.2 r.1)).flatten

/-- Insertion of the enumerated metatiles, in order, into a symbol-to-index
map; a later entry with the same symbol overwrites an earlier one, exactly as
when `collect`ing an iterator of pairs into a Rust `HashMap`. -/
def buildMap (i : Nat) (ms : List Metatile) (f : Char → Option Nat) : Char → Option Nat :=
  match ms with
  | [] => f
  | m :: rest => buildMap (i + 1) rest (fun c => if c = m.symbol then some i else f c)

/-- The `metatiles: HashMap<char, u8>` built at the top of `Stage::write_binary`
(src/stage/serialize.rs lines 93-96). -/
def metatileMap (ms : List Metatile) : Char → Option Nat :=
  buildMap 0 ms (fun _ => none)

/-- The encoded stage body (src/stage/serialize.rs lines 142-150): one byte
per run whose character is found in the metatile map - high nibble is the run
length minus 1, low nibble the metatile index - and nothing for a run whose
character is absent. -/
def stageBody (ms : List Metatile) (encoded : List (Char × Nat)) : List Nat :=
  encoded.filterMap (fun r =>
    match metatileMap ms r.1 with
    | some index => some (((r.2 - 1) <<< 4) ||| (15 &&& index))
    | none => none)

/-- One pass of the `for iterator in &mut iterators` round inside the
Horizontal `'outer: loop` (src/stage/serialize.rs lines 123-131): take the
character at column `c` of each line in order; the first exhausted line stops
the round and signals the break of the outer loop. -/
def horizRound (lines : List (List Char)) (c : Nat) : List Char × Bool :=
  match lines with
  | [] => ([], false)
  | l :: rest =>
    match l[c]? with
    | some ch =>
      let p := horizRound rest c
      (ch :: p.1, p.2)
    | none => ([], true)

/-- The Horizontal `'outer: loop`, advancing one column per round.  The loop
in the source terminates only through the `break 'outer`; `fuel` bounds the
number of rounds so the model is total, and `none` models the loop never
breaking (which happens exactly when the stage has no lines, making the
source loop forever). -/
def horizLoop (lines : List (List Char)) (c fuel : Nat) : Option (List Char) :=
  match fuel with
  | 0 => none
  | fuel + 1 =>
    let p := horizRound lines c
    if p.2 then some p.1
    else match horizLoop lines (c + 1) fuel with
         | some rest => some (p.1 ++ rest)
         | none => none

/-- Length of the shortest line (0 for no lines); used only to size the fuel
of `horizLoop`, which is enough for the loop to reach its break. -/
def minLen : List (List Char) → Nat
  | [] => 0
  | [l] => l.length
  | l :: rest => min l.length (minLen rest)

/-- The `match &self.orientation` block building `chars`
(src/stage/serialize.rs lines 119-138): Horizontal transposes via rounds,
Vertical concatenates the lines. -/
def linearize (o : Orientation) (lines : List (List Char)) : Option (List Char) :=
  match o with
  | .Horizontal => horizLoop lines 0 (minLen lines + 1)
  | .Vertical => some lines.flatten

/-- The five bytes written per metatile: palette byte then the four tiles. -/
def metatileBytes (m : Metatile) : List Nat :=
  [m.palette, m.tiles.1, m.tiles.2.1, m.tiles.2.2.1, m.tiles.2.2.2]

/-- `Stage::write_binary` (src/stage/serialize.rs lines 92-158): palettes,
metatile count, metatile records, body length byte (`as u8`, hence `% 256`),
body.  In the source the header bytes are written before the linearization
loop runs; `none` here models the call never returning (the Horizontal loop
spinning forever on an empty line list), in which case no complete output
exists. -/
def writeBinary (s : Stage) : Option (List Nat) :=
  match linearize s.orientation s.data with
  | none => none
  | some chars =>
    let encoded := run_length_encode chars 16
    let outbytes := stageBody s.metatiles encoded
    some (s.background_palette ++ s.sprite_palette ++ [s.metatiles.length % 256] ++
      (s.metatiles.map metatileBytes).flatten ++ [outbytes.length % 256] ++ outbytes)

/-! ### Run-length encoding: bounds and losslessness -/

lemma decodeRuns_append (xs ys : List (Char × Nat)) :
    decodeRuns (xs ++ ys) = decodeRuns xs ++ decodeRuns ys := by
  simp [decodeRuns]

/-- Invariants of the `run_length_encode` loop: the running count stays below
the limit, every emitted run has count in [1, limit], and the emitted runs
followed by the pending run decode to the consumed input. -/
lemma rleStep_inv (limit : Nat) (hl : 2 ≤ limit) (st : Char × Nat × List (Char × Nat))
    (c : Char) (h1 : st.2.1 < limit) (h2 : ∀ r ∈ st.2.2, 1 ≤ r.2 ∧ r.2 ≤ limit) :
    (rleStep limit st c).2.1 < limit ∧
    (∀ r ∈ (rleStep limit st c).2.2, 1 ≤ r.2 ∧ r.2 ≤ limit) ∧
    decodeRuns (rleStep limit st c).2.2 ++
        List.replicate (rleStep limit st c).2.1 (rleStep limit st c).1 =
      decodeRuns st.2.2 ++ List.replicate st.2.1 st.1 ++ [c] := by
  obtain ⟨cur, cnt, out⟩ := st
  simp only [rleStep]
  dsimp only at h1 h2
  split_ifs with hc hlim hpos <;> dsimp only
  · subst hc
    refine ⟨by omega, ?_, ?_⟩
    · intro r hr
      rcases List.mem_append.mp hr with h | h
      · exact h2 r h
      · simp only [List.mem_singleton] at h
        subst h
        exact ⟨by omega, by omega⟩
    · rw [decodeRuns_append]
      simp [decodeRuns, List.replicate_succ']
  · subst hc
    refine ⟨by omega, h2, ?_⟩
    simp [List.replicate_succ']
  · refine ⟨by omega, ?_, ?_⟩
    · intro r hr
      rcases List.mem_append.mp hr with h | h
      · exact h2 r h
      · simp only [List.mem_singleton] at h
        subst h
        exact ⟨by omega, by omega⟩
    · rw [decodeRuns_append]
      simp [decodeRuns]
  · have hz : cnt = 0 := by omega
    subst hz
    refine ⟨by omega, h2, ?_⟩
    simp

lemma rle_foldl (limit : Nat) (hl : 2 ≤ limit) (cs : List Char) :
    ∀ st : Char × Nat × List (Char × Nat),
      st.2.1 < limit → (∀ r ∈ st.2.2, 1 ≤ r.2 ∧ r.2 ≤ limit) →
      (cs.foldl (rleStep limit) st).2.1 < limit ∧
      (∀ r ∈ (cs.foldl (rleStep limit) st).2.2, 1 ≤ r.2 ∧ r.2 ≤ limit) ∧
      decodeRuns (cs.foldl (rleStep limit) st).2.2 ++
          List.replicate (cs.foldl (rleStep limit) st).2.1
            (cs.foldl (rleStep limit) st).1 =
        decodeRuns st.2.2 ++ List.replicate st.2.1 st.1 ++ cs := by
  induction cs with
  | nil =>
    intro st h1 h2
    exact ⟨h1, h2, by simp⟩
  | cons c cs ih =>
    intro st h1 h2
    obtain ⟨s1, s2, s3⟩ := rleStep_inv limit hl st c h1 h2
    obtain ⟨f1, f2, f3⟩ := ih (rleStep limit st c) s1 s2
    rw [List.foldl_cons]
    refine ⟨f1, f2, ?_⟩
    rw [f3, s3, List.append_assoc]
    simp

lemma run_length_encode_cons (c0 : Char) (rest : List Char) (limit : Nat) :
    run_length_encode (c0 :: rest) limit =
      (if (rest.foldl (rleStep limit) (c0, 1, [])).2.1 > 0
       then (rest.foldl (rleStep limit) (c0, 1, [])).2.2 ++
         [((rest.foldl (rleStep limit) (c0, 1, [])).1,
           (rest.foldl (rleStep limit) (c0, 1, [])).2.1)]
       else (rest.foldl (rleStep limit) (c0, 1, [])).2.2) := rfl

/-- `run_length_encode` with any limit at least 2: every emitted run has count
in [1, limit] and the runs decode back to the input. -/
lemma rle_props (chars : List Char) (limit : Nat) (hl : 2 ≤ limit) :
    (∀ r ∈ run_length_encode chars limit, 1 ≤ r.2 ∧ r.2 ≤ limit) ∧
    decodeRuns (run_length_encode chars limit) = chars := by
  cases chars with
  | nil => exact ⟨by simp [run_length_encode], by simp [run_length_encode, decodeRuns]⟩
  | cons c0 rest =>
    obtain ⟨hcnt, hout, hdec⟩ :=
      rle_foldl limit hl rest (c0, 1, []) (show (1:Nat) < limit by omega) (by simp)
    rw [run_length_encode_cons]
    simp only [decodeRuns, List.replicate_succ, List.replicate_zero, List.map_nil,
      List.flatten_nil, List.nil_append] at hdec
    split_ifs with hpos
    · refine ⟨?_, ?_⟩
      · intro r hr
        rcases List.mem_append.mp hr with h | h
        · exact hout r h
        · simp only [List.mem_singleton] at h
          subst h
          exact ⟨by omega, by omega⟩
      · rw [decodeRuns_append]
        have hsingle : decodeRuns [((rest.foldl (rleStep limit) (c0, 1, [])).1,
            (rest.foldl (rleStep limit) (c0, 1, [])).2.1)] =
            List.replicate (rest.foldl (rleStep limit) (c0, 1, [])).2.1
              (rest.foldl (rleStep limit) (c0, 1, [])).1 := by
          simp [decodeRuns]
        rw [hsingle]
        simpa using hdec
    · refine ⟨hout, ?_⟩
      have hz : (rest.foldl (rleStep limit) (c0, 1, [])).2.1 = 0 := by omega
      rw [hz] at hdec
      simpa using hdec

/-- C10: with limit 16, every run produced by `run_length_encode` has count
between 1 and 16, and expanding the runs reproduces the input exactly. -/
theorem rle_lossless (chars : List Char) :
    (∀ r ∈ run_length_encode chars 16, 1 ≤ r.2 ∧ r.2 ≤ 16) ∧
    decodeRuns (run_length_encode chars 16) = chars :=
  rle_props chars 16 (by omega)

theorem rle_lossless_witness :
    (('a', (2:Nat)) ∈ run_length_encode ['a', 'a', 'b'] 16 → 1 ≤ 2 ∧ (2:Nat) ≤ 16) ∧
    decodeRuns (run_length_encode ['a', 'a', 'b'] 16) = ['a', 'a', 'b'] :=
  ⟨fun h => (rle_lossless ['a', 'a', 'b']).1 ('a', 2) h, (rle_lossless ['a', 'a', 'b']).2⟩

/-- C6: a run closes exactly on a differing character or on reaching length
16, so every run has length in [1, 16]; the spec's 17-character example run
encodes to runs (a,16),(a,1) and, against the catalog mapping a to 0, to the
two body bytes 0xF0 and 0x00. -/
theorem rle_run_cap :
    (∀ (chars : List Char) (r : Char × Nat),
        r ∈ run_length_encode chars 16 → 1 ≤ r.2 ∧ r.2 ≤ 16) ∧
    run_length_encode (List.replicate 17 'a') 16 = [('a', 16), ('a', 1)] ∧
    stageBody [⟨"a", 'a', (0, 0, 0, 0), 0⟩]
      (run_length_encode (List.replicate 17 'a') 16) = [0xF0, 0x00] := by
  refine ⟨fun chars r hr => (rle_props chars 16 (by omega)).1 r hr, by decide, by decide⟩

theorem rle_run_cap_witness :
    (('a', (16:Nat)) ∈ run_length_encode (List.replicate 17 'a') 16 →
      1 ≤ 16 ∧ (16:Nat) ≤ 16) ∧
    run_length_encode (List.replicate 17 'a') 16 = [('a', 16), ('a', 1)] :=
  ⟨fun h => rle_run_cap.1 (List.replicate 17 'a') ('a', 16) h, rle_run_cap.2.1⟩

/-! ### C8: runs with unknown symbols are silently dropped -/

/-- A concrete stage whose grid contains the character X, absent from its
two-entry metatile catalog. -/
def stageWithUnknown : Stage :=
  { orientation := .Horizontal
    background_palette := List.replicate 16 0
    sprite_palette := List.replicate 16 0
    metatiles := [⟨"a", 'a', (1, 2, 3, 4), 0⟩, ⟨"b", 'b', (5, 6, 7, 8), 1⟩]
    data := [['a', 'a', 'b', 'X']] }

/-- The same stage with the unknown-character run removed from the grid. -/
def stageWithoutUnknown : Stage :=
  { stageWithUnknown with data := [['a', 'a', 'b']] }

/-- C8: a run whose character has no catalog entry contributes no byte to the
encoded body (the body equals the body of the run list with those runs
filtered out, so they are not counted in the length byte either), and on a
concrete stage the full output equals the output with the offending run
removed, with no error. -/
theorem unknown_runs_dropped :
    (∀ (ms : List Metatile) (runs : List (Char × Nat)),
        stageBody ms runs =
          stageBody ms (runs.filter (fun r => (metatileMap ms r.1).isSome))) ∧
    writeBinary stageWithUnknown = writeBinary stageWithoutUnknown ∧
    writeBinary stageWithUnknown =
      some (List.replicate 16 0 ++ List.replicate 16 0 ++ [2] ++
        [0, 1, 2, 3, 4, 1, 5, 6, 7, 8] ++ [2] ++ [0x10, 0x01]) := by
  refine ⟨?_, by decide, by decide⟩
  intro ms runs
  induction runs with
  | nil => rfl
  | cons r rs ih =>
    cases hm : metatileMap ms r.1 with
    | none => simpa [stageBody, List.filter_cons, hm] using ih
    | some i => simpa [stageBody, List.filter_cons, hm] using ih

theorem unknown_runs_dropped_witness :
    stageBody stageWithUnknown.metatiles [('a', 2), ('X', 1)] =
      stageBody stageWithUnknown.metatiles
        ([('a', 2), ('X', 1)].filter
          (fun r => (metatileMap stageWithUnknown.metatiles r.1).isSome)) :=
  unknown_runs_dropped.1 stageWithUnknown.metatiles [('a', 2), ('X', 1)]

/-! ### C5: linearization by orientation -/

/-- Modelled from the spec: "Horizontal = column-major across lines (character
0 of every line, then character 1, ...), truncating at the shortest line's
length".  Used only to compare the code's behaviour with the spec's words. -/
def truncatedTranspose (lines : List (List Char)) : List Char :=
  ((List.range (minLen lines)).map (fun c => lines.map (fun l => l.getD c ' '))).flatten

/-- Columns c, c+1, ..., c+k-1 of the grid, column-major. -/
def columnsFrom (lines : List (List Char)) (c k : Nat) : List Char :=
  match k with
  | 0 => []
  | k + 1 => lines.map (fun l => l.getD c ' ') ++ columnsFrom lines (c + 1) k

/-- The characters the breaking round still pushes: column m of every line
before the first line of length at most m. -/
def lastRound (lines : List (List Char)) (m : Nat) : List Char :=
  (lines.takeWhile (fun l => decide (m < l.length))).map (fun l => l.getD m ' ')

lemma minLen_le (lines : List (List Char)) : ∀ l ∈ lines, minLen lines ≤ l.length := by
  induction lines with
  | nil => intro l hl; cases hl
  | cons a rest ih =>
    intro l hl
    cases rest with
    | nil =>
      simp only [List.mem_singleton] at hl
      subst hl
      exact Nat.le_refl _
    | cons b rs =>
      rcases List.mem_cons.mp hl with h | h
      · subst h
        exact Nat.le_trans (Nat.min_le_left _ _) (Nat.le_refl _)
      · exact Nat.le_trans (Nat.min_le_right _ _) (ih l h)

lemma minLen_mem (lines : List (List Char)) (h : lines ≠ []) :
    ∃ l ∈ lines, l.length = minLen lines := by
  induction lines with
  | nil => exact absurd rfl h
  | cons a rest ih =>
    cases rest with
    | nil => exact ⟨a, by simp, rfl⟩
    | cons b rs =>
      obtain ⟨l, hl, hlen⟩ := ih (by simp)
      rcases Nat.le_total a.length (minLen (b :: rs)) with hle | hle
      · refine ⟨a, by simp, ?_⟩
        show a.length = min a.length (minLen (b :: rs))
        omega
      · refine ⟨l, by simp [hl], ?_⟩
        show l.length = min a.length (minLen (b :: rs))
        omega

lemma horizRound_full (lines : List (List Char)) (c : Nat)
    (h : ∀ l ∈ lines, c < l.length) :
    horizRound lines c = (lines.map (fun l => l.getD c ' '), false) := by
  induction lines with
  | nil => rfl
  | cons l rest ih =>
    have hc : c < l.length := h l (by simp)
    simp only [horizRound, List.getElem?_eq_getElem hc]
    rw [ih (fun l hl => h l (by simp [hl]))]
    simp [List.getD_eq_getElem?_getD, List.getElem?_eq_getElem hc]

lemma horizRound_break (lines : List (List Char)) (c : Nat)
    (h : ∃ l ∈ lines, l.length ≤ c) :
    horizRound lines c =
      ((lines.takeWhile (fun l => decide (c < l.length))).map (fun l => l.getD c ' '),
        true) := by
  induction lines with
  | nil =>
    obtain ⟨l, hl, _⟩ := h
    cases hl
  | cons l rest ih =>
    by_cases hc : c < l.length
    · have hrest : ∃ l ∈ rest, l.length ≤ c := by
        obtain ⟨m, hm, hmlen⟩ := h
        rcases List.mem_cons.mp hm with rfl | hmem
        · omega
        · exact ⟨m, hmem, hmlen⟩
      simp only [horizRound, List.getElem?_eq_getElem hc]
      rw [ih hrest]
      rw [List.takeWhile_cons_of_pos (by simpa using hc)]
      simp [List.getD_eq_getElem?_getD, List.getElem?_eq_getElem hc]
    · have hnone : l[c]? = none := by
        rw [List.getElem?_eq_none_iff]
        omega
      simp only [horizRound, hnone]
      rw [List.takeWhile_cons_of_neg (by simpa using hc)]
      simp

lemma horizLoop_succ (lines : List (List Char)) (c fuel : Nat) :
    horizLoop lines c (fuel + 1) =
      (if (horizRound lines c).2 then some (horizRound lines c).1
       else match horizLoop lines (c + 1) fuel with
            | some rest => some ((horizRound lines c).1 ++ rest)
            | none => none) := rfl

lemma horizLoop_closed (lines : List (List Char)) (hne : lines ≠ []) :
    ∀ k c, minLen lines = c + k →
      horizLoop lines c (k + 1) =
        some (columnsFrom lines c k ++ lastRound lines (minLen lines)) := by
  intro k
  induction k with
  | zero =>
    intro c hc
    have hbreak : ∃ l ∈ lines, l.length ≤ c := by
      obtain ⟨l, hl, hlen⟩ := minLen_mem lines hne
      exact ⟨l, hl, by omega⟩
    rw [horizLoop_succ, horizRound_break lines c hbreak]
    rw [show c = minLen lines by omega]
    simp [columnsFrom, lastRound]
  | succ k ih =>
    intro c hc
    have hfull : ∀ l ∈ lines, c < l.length := by
      intro l hl
      have := minLen_le lines l hl
      omega
    rw [horizLoop_succ, horizRound_full lines c hfull, ih (c + 1) (by omega)]
    simp [columnsFrom, List.append_assoc]

/-- C5 counterexample: on the ragged grid with lines ab and c, the Horizontal
linearization is a,c,b - the code pushes the character of the first line in
the round where the second line runs out - not the column-major truncation
a,c claimed by the spec. -/
theorem linearize_not_truncated :
    linearize .Horizontal [['a', 'b'], ['c']] = some ['a', 'c', 'b'] ∧
    truncatedTranspose [['a', 'b'], ['c']] = ['a', 'c'] ∧
    linearize .Horizontal [['a', 'b'], ['c']] ≠
      some (truncatedTranspose [['a', 'b'], ['c']]) := by
  exact ⟨by decide, by decide, by decide⟩

/-- C5 amended: Vertical linearization is the row-major concatenation of the
lines, with no truncation; Horizontal linearization of a grid with at least
one line emits the full columns up to the shortest line's length and then, in
the round that hits the end of a line, the column-m characters of the lines
preceding the first exhausted one (for grids whose lines all have equal
length this is exactly column-major truncation, giving a,c,b,d for ab,cd); a
grid with no lines makes the Horizontal loop spin forever. -/
theorem linearize_by_orientation (lines : List (List Char)) :
    linearize .Vertical lines = some lines.flatten ∧
    (lines ≠ [] →
      linearize .Horizontal lines =
        some (columnsFrom lines 0 (minLen lines) ++ lastRound lines (minLen lines))) ∧
    (lines = [] → linearize .Horizontal lines = none) := by
  refine ⟨rfl, ?_, ?_⟩
  · intro hne
    exact horizLoop_closed lines hne (minLen lines) 0 (by omega)
  · intro h
    subst h
    rfl

theorem linearize_by_orientation_witness :
    linearize .Vertical [['a', 'b'], ['c', 'd']] = some ['a', 'b', 'c', 'd'] ∧
    linearize .Horizontal [['a', 'b'], ['c', 'd']] = some ['a', 'c', 'b', 'd'] := by
  have h := linearize_by_orientation [['a', 'b'], ['c', 'd']]
  refine ⟨h.1, ?_⟩
  rw [h.2.1 (by decide)]
  decide

/-! ### C7: the full serialized layout -/

lemma buildMap_not_mem (ms : List Metatile) :
    ∀ (i : Nat) (f : Char → Option Nat) (c : Char),
      (∀ m ∈ ms, m.symbol ≠ c) → buildMap i ms f c = f c := by
  induction ms with
  | nil => intro i f c _; rfl
  | cons m rest ih =>
    intro i f c h
    show buildMap (i + 1) rest (fun x => if x = m.symbol then some i else f x) c = f c
    rw [ih (i + 1) _ c (fun m' hm' => h m' (by simp [hm']))]
    have hne : ¬ (c = m.symbol) := fun hc => h m (by simp) (by rw [hc])
    show (if c = m.symbol then some i else f c) = f c
    rw [if_neg hne]

lemma buildMap_mem (ms : List Metatile) :
    ∀ (i : Nat) (f : Char → Option Nat) (c : Char),
      (ms.map (fun m => m.symbol)).Nodup → (∃ m ∈ ms, m.symbol = c) →
      buildMap i ms f c = some (i + ms.findIdx (fun m => m.symbol == c)) := by
  induction ms with
  | nil =>
    intro i f c _ h
    obtain ⟨m, hm, _⟩ := h
    cases hm
  | cons m rest ih =>
    intro i f c hnd hex
    show buildMap (i + 1) rest (fun x => if x = m.symbol then some i else f x) c = _
    simp only [List.map_cons, List.nodup_cons] at hnd
    by_cases hc : m.symbol = c
    · have hrest : ∀ m' ∈ rest, m'.symbol ≠ c := by
        intro m' hm' hcon
        exact hnd.1 (by rw [hc, ← hcon]; exact List.mem_map_of_mem _ hm')
      rw [buildMap_not_mem rest (i + 1) _ c hrest]
      rw [List.findIdx_cons]
      simp [hc]
    · have hex' : ∃ m' ∈ rest, m'.symbol = c := by
        obtain ⟨m', hm', he⟩ := hex
        rcases List.mem_cons.mp hm' with rfl | hmem
        · exact absurd he hc
        · exact ⟨m', hmem, he⟩
      rw [ih (i + 1) _ c hnd.2 hex']
      rw [List.findIdx_cons]
      have : (m.symbol == c) = false := by simpa using hc
      simp only [this, cond_false]
      congr 1
      omega

/-- With pairwise-distinct symbols, the HashMap lookup gives the index of the
unique catalog entry carrying the symbol. -/
lemma metatileMap_eq_findIdx (ms : List Metatile) (c : Char)
    (hnd : (ms.map (fun m => m.symbol)).Nodup) (hex : ∃ m ∈ ms, m.symbol = c) :
    metatileMap ms c = some (ms.findIdx (fun m => m.symbol == c)) := by
  have h := buildMap_mem ms 0 (fun _ => none) c hnd hex
  simpa [metatileMap] using h

/-- Packing two nibbles into one byte: shift-or equals the arithmetic form. -/
lemma nibble_pack (a b : Nat) (ha : a ≤ 15) (hb : b ≤ 15) :
    (a <<< 4) ||| (15 &&& b) = 16 * a + b := by
  interval_cases a <;> interval_cases b <;> decide

/-- Every character carried by a run of the encoding occurs in the input. -/
lemma rle_mem (chars : List Char) (r : Char × Nat)
    (hr : r ∈ run_length_encode chars 16) : r.1 ∈ chars := by
  obtain ⟨hb, hdec⟩ := rle_props chars 16 (by omega)
  have h1 : 1 ≤ r.2 := (hb r hr).1
  rw [← hdec]
  simp only [decodeRuns, List.mem_flatten]
  refine ⟨List.replicate r.2 r.1, List.mem_map_of_mem _ hr, ?_⟩
  rw [List.mem_replicate]
  exact ⟨by omega, rfl⟩

lemma horizRound_mem (lines : List (List Char)) (c : Nat) :
    ∀ x ∈ (horizRound lines c).1, ∃ l ∈ lines, x ∈ l := by
  induction lines with
  | nil => intro x hx; cases hx
  | cons l rest ih =>
    intro x hx
    cases hl : l[c]? with
    | none =>
      rw [show horizRound (l :: rest) c = ([], true) by simp [horizRound, hl]] at hx
      cases hx
    | some ch =>
      rw [show horizRound (l :: rest) c = (ch :: (horizRound rest c).1,
          (horizRound rest c).2) by simp [horizRound, hl]] at hx
      rcases List.mem_cons.mp hx with rfl | hmem
      · exact ⟨l, by simp, List.getElem?_mem hl⟩
      · obtain ⟨l', hl', hxl'⟩ := ih x hmem
        exact ⟨l', by simp [hl'], hxl'⟩

lemma horizLoop_mem (lines : List (List Char)) :
    ∀ (fuel c : Nat) (chars : List Char), horizLoop lines c fuel = some chars →
      ∀ x ∈ chars, ∃ l ∈ lines, x ∈ l := by
  intro fuel
  induction fuel with
  | zero => intro c chars h; cases h
  | succ fuel ih =>
    intro c chars h x hx
    rw [horizLoop_succ] at h
    by_cases hb : (horizRound lines c).2
    · rw [if_pos hb] at h
      cases h
      exact horizRound_mem lines c x hx
    · rw [if_neg hb] at h
      cases hrec : horizLoop lines (c + 1) fuel with
      | none => rw [hrec] at h; cases h
      | some rest =>
        rw [hrec] at h
        cases h
        rcases List.mem_append.mp hx with hm | hm
        · exact horizRound_mem lines c x hm
        · exact ih (c + 1) rest hrec x hm

/-- Every linearized character comes from some line of the grid. -/
lemma linearize_mem (o : Orientation) (lines : List (List Char)) (chars : List Char)
    (h : linearize o lines = some chars) : ∀ x ∈ chars, ∃ l ∈ lines, x ∈ l := by
  cases o with
  | Horizontal => exact horizLoop_mem lines (minLen lines + 1) 0 chars h
  | Vertical =>
    intro x hx
    cases h
    simpa using List.mem_flatten.mp hx

/-- The body bytes when every run character resolves in the map. -/
lemma stageBody_eq_map (ms : List Metatile) (runs : List (Char × Nat))
    (g : Char × Nat → Nat) (h : ∀ r ∈ runs, metatileMap ms r.1 = some (g r)) :
    stageBody ms runs =
      runs.map (fun r => ((r.2 - 1) <<< 4) ||| (15 &&& g r)) := by
  induction runs with
  | nil => rfl
  | cons r rs ih =>
    have hr := h r (by simp)
    simp only [stageBody, List.filterMap_cons, hr, List.map_cons]
    rw [← stageBody]
    rw [ih (fun r' hr' => h r' (by simp [hr']))]

/-- C7 counterexample: the Horizontal stage with no grid lines satisfies every
hypothesis of the claim (empty catalog, no characters, zero-length body), yet
`write_binary` loops forever instead of emitting the 34-byte layout. -/
theorem write_binary_diverges_on_empty :
    writeBinary ⟨.Horizontal, List.replicate 16 0, List.replicate 16 0, [], []⟩ = none ∧
    writeBinary ⟨.Horizontal, List.replicate 16 0, List.replicate 16 0, [], []⟩ ≠
      some (List.replicate 16 0 ++ List.replicate 16 0 ++ [0] ++ [] ++ [0] ++ []) := by
  exact ⟨rfl, by decide⟩

/-- C7 amended: for every stage whose metatile catalog has at most 16 entries
with pairwise-distinct symbols, whose grid characters all appear in the
catalog, whose encoded body is at most 255 bytes, and whose linearization
terminates (some characters come out of the orientation loop, which fails
only for a Horizontal stage with no lines), `write_binary` emits exactly the
background palette, the sprite palette, one metatile-count byte, the
palette byte and 4 tile bytes of each metatile in order, one byte holding the
encoded-body length, and one byte per run with high nibble the run length
minus 1 and low nibble the run character's catalog index. -/
theorem write_binary_layout (s : Stage) (chars : List Char)
    (hlin : linearize s.orientation s.data = some chars)
    (hcount : s.metatiles.length ≤ 16)
    (hsyms : (s.metatiles.map (fun m => m.symbol)).Nodup)
    (hmem : ∀ l ∈ s.data, ∀ c ∈ l, ∃ m ∈ s.metatiles, m.symbol = c)
    (hbody : (run_length_encode chars 16).length ≤ 255) :
    writeBinary s =
      some (s.background_palette ++ s.sprite_palette ++ [s.metatiles.length] ++
        (s.metatiles.map metatileBytes).flatten ++
        [(run_length_encode chars 16).length] ++
        (run_length_encode chars 16).map (fun r =>
          16 * (r.2 - 1) + s.metatiles.findIdx (fun m => m.symbol == r.1))) := by
  have hlook : ∀ r ∈ run_length_encode chars 16,
      metatileMap s.metatiles r.1 =
        some (s.metatiles.findIdx (fun m => m.symbol == r.1)) := by
    intro r hr
    have hchar : r.1 ∈ chars := rle_mem chars r hr
    obtain ⟨l, hl, hcl⟩ := linearize_mem s.orientation s.data chars hlin r.1 hchar
    exact metatileMap_eq_findIdx s.metatiles r.1 hsyms (hmem l hl r.1 hcl)
  have hbodyeq : stageBody s.metatiles (run_length_encode chars 16) =
      (run_length_encode chars 16).map (fun r =>
        16 * (r.2 - 1) + s.metatiles.findIdx (fun m => m.symbol == r.1)) := by
    rw [stageBody_eq_map s.metatiles (run_length_encode chars 16)
      (fun r => s.metatiles.findIdx (fun m => m.symbol == r.1)) hlook]
    apply List.map_congr_left
    intro r hr
    have hb := (rle_props chars 16 (by omega)).1 r hr
    have hidx : s.metatiles.findIdx (fun m => m.symbol == r.1) < s.metatiles.length := by
      apply List.findIdx_lt_length_of_exists
      have hchar : r.1 ∈ chars := rle_mem chars r hr
      obtain ⟨l, hl, hcl⟩ := linearize_mem s.orientation s.data chars hlin r.1 hchar
      obtain ⟨m, hm, hms⟩ := hmem l hl r.1 hcl
      exact ⟨m, hm, by simpa using hms⟩
    exact nibble_pack (r.2 - 1) (s.metatiles.findIdx (fun m => m.symbol == r.1))
      (by omega) (by omega)
  unfold writeBinary
  rw [hlin]
  simp only [hbodyeq]
  rw [Nat.mod_eq_of_lt (by omega), List.length_map, Nat.mod_eq_of_lt (by omega)]

theorem write_binary_layout_witness :
    writeBinary stageWithoutUnknown =
      some (stageWithoutUnknown.background_palette ++
        stageWithoutUnknown.sprite_palette ++ [stageWithoutUnknown.metatiles.length] ++
        (stageWithoutUnknown.metatiles.map metatileBytes).flatten ++
        [(run_length_encode ['a', 'a', 'b'] 16).length] ++
        (run_length_encode ['a', 'a', 'b'] 16).map (fun r =>
          16 * (r.2 - 1) +
            stageWithoutUnknown.metatiles.findIdx (fun m => m.symbol == r.1))) :=
  write_binary_layout stageWithoutUnknown ['a', 'a', 'b'] (by decide) (by decide)
    (by decide) (by decide) (by decide)

/-! ### Sheet extractor and pattern table (src/sprites/sheet.rs, mod.rs) -/

/-- A decoded indexed-color bitmap: width, height, one byte per pixel. -/
structure Bitmap where
  width : Nat
  height : Nat
  buffer : List Nat
deriving DecidableEq

/-- The outcome of `lodepng::decode_file`, the external image-decode
collaborator: a raw indexed bitmap, some other image representation, or a
decode error. -/
inductive DecodeResult where
  | rawData (bitmap : Bitmap)
  | otherFormat
  | err (msg : String)

/-- The 64 bytes of the 8x8 block at tile position (row, column), as sliced
by the flat_map inside `load_tiles` (src/sprites/sheet.rs lines 249-257).
Rust's slice indexing would panic on a bitmap whose buffer is shorter than
width*height; here a short buffer yields fewer than 64 bytes and so a
DimensionsError from `Tile::from_bytes` instead, a case outside lodepng's
contract and outside every theorem below. -/
def tileBytesAt (bitmap : Bitmap) (row column : Nat) : List Nat :=
  ((List.range 8).map (fun line =>
    (bitmap.buffer.drop
      (bitmap.width * row * 8 + column * 8 + line * bitmap.width)).take 8)).flatten

/-- `LoadTiles::load_tiles` (src/sprites/sheet.rs lines 223-271): decode the
image, validate its dimensions against the sheet size and its pixels against
the 2-bit palette, then cut it into 8x8 tiles in raster order. -/
def load_tiles (decode : String → DecodeResult) (width height : Nat)
    (path name : String) : Except Error (List Tile) :=
  match decode path with
  | .err e => .error (.PNGError e)
  | .otherFormat => .error (.FormatError "Image format was incorrect")
  | .rawData bitmap =>
    if bitmap.width < width * 8 then
      .error (.DimensionsError ("Image too thin, need " ++ toString (width * 8) ++
        ", got " ++ toString bitmap.width ++ "."))
    else if bitmap.height < height * 8 then
      .error (.DimensionsError ("Image too short, need " ++ toString (height * 8) ++
        ", got " ++ toString bitmap.height ++ "."))
    else
      match bitmap.buffer.find? (fun item => decide (3 < item)) with
      | some item =>
          .error (.PaletteError ("Image has a byte out of bounds; needs to be under 4, got " ++
            toString item ++ "."))
      | none =>
          ((List.range height).mapM (fun row =>
            (List.range width).mapM (fun column =>
              Tile.from_bytes (tileBytesAt bitmap row column) (some name)))).map
            (fun rows => rows.flatten)

/-- The Fill sheet descriptor (src/sprites/sheet.rs lines 11-21). -/
structure Fill where
  value : Nat
  name : String
  count : Nat

/-- `Fill::pull_tiles` (src/sprites/sheet.rs lines 25-36). -/
def Fill.pull_tiles (f : Fill) : Except Error (List Tile) :=
  if f.value > 3 then
    .error (.FormatError ("Value must be between 0 and 3, but was " ++ toString f.value))
  else
    (Tile.from_bytes (List.replicate 64 f.value) (some f.name)).map
      (fun tile => List.replicate f.count tile)

/-- The Simple sheet descriptor (src/sprites/sheet.rs lines 42-55). -/
structure Simple where
  file : String
  name : String
  width : Nat
  height : Nat

/-- `Simple::pull_tiles` (src/sprites/sheet.rs lines 59-80).  The outer
`Option` models a Rust panic on the `tiles[tile_number]` indexing (which in
fact cannot fire when loading succeeded, since loading yields exactly
width*height tiles). -/
def Simple.pull_tiles (decode : String → DecodeResult) (s : Simple) :
    Option (Except Error (List Tile)) :=
  match load_tiles decode s.width s.height s.file s.name with
  | .error e => some (.error e)
  | .ok tiles =>
    ((List.range s.height).mapM (fun y =>
      (List.range s.width).mapM (fun x =>
        (tiles[y * s.width + x]?).map (fun t =>
          { t with name := some (s.name ++ "_" ++ toString x ++ "_" ++ toString y) })))).map
      (fun rows => .ok rows.flatten)

/-- The Animation sheet descriptor (src/sprites/sheet.rs lines 91-106). -/
structure Animation where
  file : String
  name : String
  frame_width : Nat
  frame_height : Nat
  frames : Nat

/-- `Animation::pull_tiles` (src/sprites/sheet.rs lines 110-138): frame-major
extraction with the sheet width being frame_width * frames. -/
def Animation.pull_tiles (decode : String → DecodeResult) (a : Animation) :
    Option (Except Error (List Tile)) :=
  match load_tiles decode (a.frame_width * a.frames) a.frame_height a.file a.name with
  | .error e => some (.error e)
  | .ok tiles =>
    ((List.range a.frames).mapM (fun frame =>
      (List.range a.frame_height).mapM (fun y =>
        (List.range a.frame_width).mapM (fun x =>
          (tiles[frame * a.frame_width + y * (a.frame_width * a.frames) + x]?).map
            (fun t => { t with name := some (a.name ++ "_" ++ toString frame ++ "_" ++
              toString (y * a.frame_width + x)) }))))).map
      (fun l => .ok l.flatten.flatten)

/-- The Slice sheet descriptor (src/sprites/sheet.rs lines 148-163). -/
structure Slice where
  file : String
  name : String
  width : Nat
  height : Nat
  slices : List (List Nat)

/-- The inner loop of `Slice::pull_tiles`: walk one slice, indexing the tile
pool with `tiles[*slice_tile]` - `none` models the index-out-of-bounds panic
Rust raises when the pool index is out of range. -/
def sliceOne (name : String) (tiles : List Tile) (slice_number : Nat) :
    Nat → List Nat → Option (List Tile)
  | _, [] => some []
  | tile_number, idx :: rest =>
    match tiles[idx]? with
    | none => none
    | some t =>
      match sliceOne name tiles slice_number (tile_number + 1) rest with
      | none => none
      | some ts => some (({ t with name := some (name ++ "_" ++ toString slice_number ++
          "_" ++ toString tile_number) }) :: ts)

/-- The outer loop of `Slice::pull_tiles` over the enumerated slices. -/
def sliceAll (name : String) (tiles : List Tile) :
    Nat → List (List Nat) → Option (List Tile)
  | _, [] => some []
  | slice_number, sl :: rest =>
    match sliceOne name tiles slice_number 0 sl with
    | none => none
    | some ts =>
      match sliceAll name tiles (slice_number + 1) rest with
      | none => none
      | some more => some (ts ++ more)

/-- `Slice::pull_tiles` (src/sprites/sheet.rs lines 167-184). -/
def Slice.pull_tiles (decode : String → DecodeResult) (s : Slice) :
    Option (Except Error (List Tile)) :=
  match load_tiles decode s.width s.height s.file s.name with
  | .error e => some (.error e)
  | .ok tiles =>
    match sliceAll s.name tiles 0 s.slices with
    | none => none
    | some out => some (.ok out)

/-- The Sheet enum (src/sprites/sheet.rs lines 190-195): a closed variant of
four sheet kinds. -/
inductive Sheet where
  | Animation (sprite : Animation)
  | Slice (sprite : Slice)
  | Simple (sprite : Simple)
  | Fill (sprite : Fill)

/-- The per-sheet `match` inside `PatternTable::from_sheet_pattern_table`
(src/sprites/mod.rs lines 276-280 and 284-288).  The source match has arms
for Animation, Slice and Simple only, although the Sheet enum also carries
Fill: a Fill sheet has no code path at all (the non-exhaustive match is not
even accepted by the Rust compiler), which `none` models. -/
def pullSheet (decode : String → DecodeResult) : Sheet → Option (Except Error (List Tile))
  | .Animation sprite => Animation.pull_tiles decode sprite
  | .Slice sprite => Slice.pull_tiles decode sprite
  | .Simple sprite => Simple.pull_tiles decode sprite
  | .Fill _ => none

/-- A sheet pattern table: the manifest's left and right sheet lists. -/
structure SheetPatternTable where
  left : List Sheet
  right : List Sheet

/-- One page loop of `from_sheet_pattern_table`: extract each sheet in
manifest order and concatenate, stopping at the first error (`?`) and
propagating a missing code path. -/
def pullPage (decode : String → DecodeResult) : List Sheet → Option (Except Error (List Tile))
  | [] => some (.ok [])
  | s :: rest =>
    match pullSheet decode s with
    | none => none
    | some (.error e) => some (.error e)
    | some (.ok ts) =>
      match pullPage decode rest with
      | none => none
      | some (.error e) => some (.error e)
      | some (.ok more) => some (.ok (ts ++ more))

/-- A pattern table of tiles, in two pages. -/
structure PatternTable where
  left : List Tile
  right : List Tile

/-- The unnamed all-zero tile used to pad the pages to 256 entries. -/
def blankTile : Tile := { name := none, data := List.replicate 16 0 }

/-- `PatternTable::from_sheet_pattern_table` (src/sprites/mod.rs lines
271-316): pull both pages, reject a page longer than 256 with a
DimensionsError naming the page and the count, otherwise pad each page with
blank tiles up to exactly 256. -/
def PatternTable.from_sheet_pattern_table (decode : String → DecodeResult)
    (sheet_table : SheetPatternTable) : Option (Except Error PatternTable) :=
  match pullPage decode sheet_table.left with
  | none => none
  | some (.error e) => some (.error e)
  | some (.ok left) =>
    match pullPage decode sheet_table.right with
    | none => none
    | some (.error e) => some (.error e)
    | some (.ok right) =>
      if left.length > 256 then
        some (.error (.DimensionsError
          ("left table contained too many tiles. Can not exceed 256, but has " ++
            toString left.length)))
      else if right.length > 256 then
        some (.error (.DimensionsError
          ("right table contained too many tiles. Can not exceed 256, but has " ++
            toString right.length)))
      else
        some (.ok { left := left ++ List.replicate (256 - left.length) blankTile,
                    right := right ++ List.replicate (256 - right.length) blankTile })

/-! ### C3, C4, C9: pattern-table and slice claims -/

/-- C3: whenever both pages extract successfully, a page of at most 256 tiles
is returned as exactly 256 tiles - the extracted tiles in order followed by
unnamed all-zero padding - and a page whose extraction exceeds 256 tiles
makes the builder fail with a DimensionsError naming the page and the count
(the left page is checked first). -/
theorem pattern_table_pages (decode : String → DecodeResult) (t : SheetPatternTable)
    (tsL tsR : List Tile)
    (hL : pullPage decode t.left = some (.ok tsL))
    (hR : pullPage decode t.right = some (.ok tsR)) :
    (tsL.length ≤ 256 → tsR.length ≤ 256 →
      PatternTable.from_sheet_pattern_table decode t =
        some (.ok ⟨tsL ++ List.replicate (256 - tsL.length) blankTile,
                   tsR ++ List.replicate (256 - tsR.length) blankTile⟩) ∧
      (tsL ++ List.replicate (256 - tsL.length) blankTile).length = 256 ∧
      (tsR ++ List.replicate (256 - tsR.length) blankTile).length = 256) ∧
    (256 < tsL.length →
      PatternTable.from_sheet_pattern_table decode t =
        some (.error (.DimensionsError
          ("left table contained too many tiles. Can not exceed 256, but has " ++
            toString tsL.length)))) ∧
    (tsL.length ≤ 256 → 256 < tsR.length →
      PatternTable.from_sheet_pattern_table decode t =
        some (.error (.DimensionsError
          ("right table contained too many tiles. Can not exceed 256, but has " ++
            toString tsR.length)))) := by
  unfold PatternTable.from_sheet_pattern_table
  rw [hL, hR]
  dsimp only
  refine ⟨?_, ?_, ?_⟩
  · intro hl hr
    rw [if_neg (by omega), if_neg (by omega)]
    refine ⟨rfl, ?_, ?_⟩ <;>
      simp only [List.length_append, List.length_replicate] <;> omega
  · intro hl
    rw [if_pos (by omega)]
  · intro hl hr
    rw [if_neg (by omega), if_pos (by omega)]

theorem pattern_table_pages_witness :
    PatternTable.from_sheet_pattern_table (fun _ => DecodeResult.err "e") ⟨[], []⟩ =
      some (.ok ⟨([] : List Tile) ++ List.replicate (256 - ([] : List Tile).length) blankTile,
                 ([] : List Tile) ++ List.replicate (256 - ([] : List Tile).length) blankTile⟩) ∧
    (([] : List Tile) ++ List.replicate (256 - ([] : List Tile).length) blankTile).length = 256 :=
  have h := (pattern_table_pages (fun _ => DecodeResult.err "e") ⟨[], []⟩ [] []
    rfl rfl).1 (by decide) (by decide)
  ⟨h.1, h.2.1⟩

/-- C4 (code bug): the Sheet enum is closed over Simple, Animation, Slice and
Fill, and Fill::pull_tiles produces its fill tiles, but the match inside
from_sheet_pattern_table has arms only for the other three kinds, so a table
containing a Fill sheet has no code path (in Rust the non-exhaustive match is
rejected by the compiler); the model yields no result for such a table even
though the Fill extraction itself succeeds. -/
theorem fill_sheet_unhandled :
    PatternTable.from_sheet_pattern_table (fun _ => DecodeResult.err "e")
      ⟨[Sheet.Fill ⟨0, "f", 1⟩], []⟩ = none ∧
    Fill.pull_tiles ⟨0, "f", 1⟩ =
      .ok [{ name := some "f", data := List.replicate 16 0 }] :=
  ⟨rfl, rfl⟩

/-- A decoder delivering one well-formed all-zero 8x8 bitmap, and a Slice
descriptor asking for pool index 5 out of a 1-tile pool. -/
def sliceDemoDecoder : String → DecodeResult := fun _ => .rawData ⟨8, 8, List.replicate 64 0⟩

def sliceDemo : Slice := { file := "img", name := "n", width := 1, height := 1, slices := [[5]] }

/-- C9 counterexample: a Slice descriptor with an out-of-range pool index
does not return a DimensionsError result - the `tiles[*slice_tile]` indexing
panics (modelled by `none`), so no result at all is produced. -/
theorem slice_oob_not_dimensions_error :
    Slice.pull_tiles sliceDemoDecoder sliceDemo = none ∧
    ¬ ∃ msg, Slice.pull_tiles sliceDemoDecoder sliceDemo =
        some (.error (.DimensionsError msg)) := by
  refine ⟨rfl, ?_⟩
  rintro ⟨msg, h⟩
  rw [show Slice.pull_tiles sliceDemoDecoder sliceDemo = none from rfl] at h
  cases h

lemma sliceOne_oob (name : String) (tiles : List Tile) (slice_number : Nat) :
    ∀ (k : Nat) (sl : List Nat), (∃ i ∈ sl, tiles.length ≤ i) →
      sliceOne name tiles slice_number k sl = none := by
  intro k sl
  induction sl generalizing k with
  | nil =>
    rintro ⟨i, hi, _⟩
    cases hi
  | cons idx rest ih =>
    rintro ⟨i, hi, hlen⟩
    cases hidx : tiles[idx]? with
    | none => simp [sliceOne, hidx]
    | some t =>
      have hlt : idx < tiles.length := by
        by_contra hge
        rw [List.getElem?_eq_none_iff.mpr (by omega)] at hidx
        cases hidx
      have hrest : ∃ i ∈ rest, tiles.length ≤ i := by
        rcases List.mem_cons.mp hi with rfl | hmem
        · omega
        · exact ⟨i, hmem, hlen⟩
      simp [sliceOne, hidx, ih (k + 1) hrest]

lemma sliceAll_oob (name : String) (tiles : List Tile) :
    ∀ (n : Nat) (sls : List (List Nat)), (∃ i ∈ sls.flatten, tiles.length ≤ i) →
      sliceAll name tiles n sls = none := by
  intro n sls
  induction sls generalizing n with
  | nil =>
    rintro ⟨i, hi, _⟩
    simp at hi
  | cons sl rest ih =>
    rintro ⟨i, hi, hlen⟩
    rw [List.flatten_cons] at hi
    rcases List.mem_append.mp hi with hmem | hmem
    · simp [sliceAll, sliceOne_oob name tiles n 0 sl ⟨i, hmem, hlen⟩]
    · cases hone : sliceOne name tiles n 0 sl with
      | none => simp [sliceAll, hone]
      | some ts => simp [sliceAll, hone, ih (n + 1) ⟨i, hmem, hlen⟩]

/-- C9 amended: when loading succeeds and some slice holds a pool index not
below the number of loaded tiles, `Slice::pull_tiles` neither produces tiles
nor returns an error result - it dies in the `tiles[*slice_tile]` indexing
(an index-out-of-bounds panic, modelled by `none`). -/
theorem slice_oob_panics (decode : String → DecodeResult) (s : Slice) (tiles : List Tile)
    (hload : load_tiles decode s.width s.height s.file s.name = .ok tiles)
    (hbad : ∃ i ∈ s.slices.flatten, tiles.length ≤ i) :
    Slice.pull_tiles decode s = none := by
  unfold Slice.pull_tiles
  rw [hload]
  dsimp only
  rw [sliceAll_oob s.name tiles 0 s.slices hbad]

theorem slice_oob_panics_witness :
    Slice.pull_tiles sliceDemoDecoder sliceDemo = none :=
  slice_oob_panics sliceDemoDecoder sliceDemo
    [{ name := some "n", data := List.replicate 16 0 }] rfl
    ⟨5, by decide, by decide⟩

end Nestools
